import Mathlib

/-!
Verification of the glyph-atlas builder and image-decode pipeline
(`impeller/typographer/backends/skia/text_render_context_skia.cc` and
`lib/ui/painting/image_decoder_impeller.cc`) against its specification.

The C++ sources are shallowly embedded below.  External collaborators
(the Skia `GrRectanizer` rectangle packer, the GPU allocator, surfaces and
textures) are modelled as explicit oracle parameters; machine integers are
modelled as `Nat`/`Int` with the `uint16_t` wraparound made explicit where
the source relies on it; fallible code returns `Option`.
-/

set_option maxRecDepth 10000

namespace Impeller

/-- Modelled from the spec: `Allocation::NextPowerOfTwoSize`
(`impeller/base/allocation.h`, not under `src/`).  The spec's growth rule
says "grow ... to the next power of two"; this computes the least power of
two that is `≥ n` (and `1` for `0`), by doubling an accumulator.  The fuel
argument `n` always suffices because `2 ^ n ≥ n`. -/
def nextPowerOfTwoGo (n : ℕ) : ℕ → ℕ → ℕ
  | 0, p => p
  | fuel + 1, p => if n ≤ p then p else nextPowerOfTwoGo n fuel (2 * p)

/-- Modelled from the spec: least power of two `≥ n`. -/
def NextPowerOfTwoSize (n : ℕ) : ℕ :=
  nextPowerOfTwoGo n n 1

theorem nextPowerOfTwoGo_ge (n : ℕ) :
    ∀ (fuel p : ℕ), n ≤ 2 ^ fuel * p → n ≤ nextPowerOfTwoGo n fuel p := by
  intro fuel
  induction fuel with
  | zero => intro p h; simpa [nextPowerOfTwoGo] using h
  | succ f ih =>
    intro p h
    simp only [nextPowerOfTwoGo]
    split
    · assumption
    · exact ih (2 * p) (by calc n ≤ 2 ^ (f + 1) * p := h
                             _ = 2 ^ f * (2 * p) := by ring)

theorem le_NextPowerOfTwoSize (n : ℕ) : n ≤ NextPowerOfTwoSize n :=
  nextPowerOfTwoGo_ge n n 1 (by simpa using Nat.le_of_lt (Nat.lt_two_pow n))

/-- A packed rectangle `(x, y, w, h)`, the model of `Rect::MakeXYWH`. -/
abbrev RectM := ℕ × ℕ × ℕ × ℕ

/-- Abstract interface of the third-party Skia `GrRectanizer` rectangle
packer (an external collaborator; its sources are not part of this
repository).  `factory w h` models `GrRectanizer::Factory(w, h)`;
`addRect pk w h` models the mutating `addRect` call and returns the packed
location together with the advanced packer state, or `none` on failure. -/
structure RectPackerModel (P : Type) where
  factory : ℕ → ℕ → P
  addRect : P → ℕ → ℕ → Option ((ℕ × ℕ) × P)

/-- `kPadding` from the source: every glyph is inserted into the packer
with a 2-pixel padding margin on each dimension. -/
def kPadding : ℕ := 2

variable {P Pair : Type}

/-- The packing loop of `PairsFitInAtlasOfSize`: walks the pair list,
inserting `glyph_size + kPadding` rectangles.  At the first failure it
returns `pairs.size() - i` (the pairs from the failure onward), leaving
the positions accumulated so far; on full success it returns `0`.
`gs` models `ISize::Ceil((pair.glyph.bounds * pair.font.GetMetrics().scale).size)`. -/
def PairsFitGo (pp : RectPackerModel P) (gs : Pair → ℕ × ℕ) :
    List Pair → List RectM → P → ℕ × List RectM × P
  | [], acc, pk => (0, acc, pk)
  | p :: rest, acc, pk =>
    let gsz := gs p
    match pp.addRect pk (gsz.1 + kPadding) (gsz.2 + kPadding) with
    | none => (rest.length + 1, acc, pk)
    | some (loc, pk') =>
      PairsFitGo pp gs rest (acc ++ [(loc.1, loc.2, gsz.1, gsz.2)]) pk'

/-- `PairsFitInAtlasOfSize` (text_render_context_skia.cc:76).  Note the
source returns `false` (i.e. `0` remaining, converted to `size_t`) when the
atlas size is empty, without clearing `glyph_positions`; this wart is kept. -/
def PairsFitInAtlasOfSize (pp : RectPackerModel P) (gs : Pair → ℕ × ℕ)
    (pairs : List Pair) (atlasSize : ℕ × ℕ)
    (glyphPositions : List RectM) (packer : P) : ℕ × List RectM × P :=
  if atlasSize.1 = 0 ∨ atlasSize.2 = 0 then (0, glyphPositions, packer)
  else PairsFitGo pp gs pairs [] packer

/-- `minimum_size` of `OptimumAtlasSizeForFontGlyphPairs`:
`minimum_alignment.value_or(0) > kMinAtlasSize ? minimum_alignment.value() : kMinAtlasSize`
with `kMinAtlasSize = 256`. -/
def minimumAtlasSize (align : Option ℕ) : ℕ :=
  if 256 < align.getD 0 then align.getD 0 else 256

/-- The do-while search loop of `OptimumAtlasSizeForFontGlyphPairs`
(text_render_context_skia.cc:169-189), with an explicit fuel argument used
only as a termination device: since every growth step strictly increases
`width + height` and the loop re-enters only while both sides are `≤ 4096`,
a fuel of `8200 > 8193` can never be exhausted (this is established by
`optimumFuel_spec` below, whose fuel hypothesis is vacuous at `8200`).
Returns the chosen size, the packer published to the atlas context via
`UpdateRectPacker` (only on success), and the final `glyph_positions`. -/
def OptimumLoopFuel (pp : RectPackerModel P) (gs : Pair → ℕ × ℕ) (pairs : List Pair) :
    ℕ → ℕ × ℕ → (ℕ × ℕ) × Option P × List RectM
  | 0, _ => ((0, 0), none, [])
  | fuel + 1, cur =>
    let packer := pp.factory cur.1 cur.2
    let r := PairsFitInAtlasOfSize pp gs pairs cur [] packer
    if r.1 = 0 then (cur, some r.2.2, r.2.1)
    else
      let next :=
        if r.1 < (pairs.length + 1) / 2 then
          (max cur.1 cur.2, NextPowerOfTwoSize (min cur.1 cur.2 + 1))
        else (NextPowerOfTwoSize (cur.1 + 1), NextPowerOfTwoSize (cur.2 + 1))
      if next.1 ≤ 4096 ∧ next.2 ≤ 4096 then OptimumLoopFuel pp gs pairs fuel next
      else ((0, 0), none, r.2.1)

/-- `OptimumAtlasSizeForFontGlyphPairs` (text_render_context_skia.cc:150).
`total_pairs = pairs.size() + 1` and `std::ceil(total_pairs / 2)` is an
integer division, so the growth threshold is `(pairs.length + 1) / 2`. -/
def OptimumAtlasSizeForFontGlyphPairs (pp : RectPackerModel P) (gs : Pair → ℕ × ℕ)
    (pairs : List Pair) (align : Option ℕ) : (ℕ × ℕ) × Option P × List RectM :=
  let m := minimumAtlasSize align
  OptimumLoopFuel pp gs pairs 8200 (m, m)

/-- The number of pairs left unpacked when all of `pairs` are attempted in a
fresh packer of size `s` (the `remaining_pairs` of one loop iteration). -/
def RemainingAt (pp : RectPackerModel P) (gs : Pair → ℕ × ℕ)
    (pairs : List Pair) (s : ℕ × ℕ) : ℕ :=
  (PairsFitInAtlasOfSize pp gs pairs s [] (pp.factory s.1 s.2)).1

/-- The growth rule in the claim's (and spec's) words: if `remaining` is
less than `ceil(total / 2) = (total + 1) / 2`, the shorter side grows to
the next power of two (the source writes the longer side first, so the
axes may swap); otherwise both sides grow to the next power of two. -/
def claimGrowthStep (total remaining : ℕ) (s : ℕ × ℕ) : ℕ × ℕ :=
  if remaining < (total + 1) / 2 then
    (max s.1 s.2, NextPowerOfTwoSize (min s.1 s.2 + 1))
  else (NextPowerOfTwoSize (s.1 + 1), NextPowerOfTwoSize (s.2 + 1))

/-- The sequence of `(attempted size, remaining pairs)` observations made
by the search loop, attempt by attempt (same recursion as `OptimumLoopFuel`). -/
def OptimumTraceFuel (pp : RectPackerModel P) (gs : Pair → ℕ × ℕ) (pairs : List Pair) :
    ℕ → ℕ × ℕ → List ((ℕ × ℕ) × ℕ)
  | 0, _ => []
  | fuel + 1, cur =>
    let packer := pp.factory cur.1 cur.2
    let r := PairsFitInAtlasOfSize pp gs pairs cur [] packer
    if r.1 = 0 then [(cur, r.1)]
    else
      let next :=
        if r.1 < (pairs.length + 1) / 2 then
          (max cur.1 cur.2, NextPowerOfTwoSize (min cur.1 cur.2 + 1))
        else (NextPowerOfTwoSize (cur.1 + 1), NextPowerOfTwoSize (cur.2 + 1))
      if next.1 ≤ 4096 ∧ next.2 ≤ 4096 then
        (cur, r.1) :: OptimumTraceFuel pp gs pairs fuel next
      else [(cur, r.1)]

/-- The attempted sizes and outcomes of `OptimumAtlasSizeForFontGlyphPairs`. -/
def OptimumAtlasTrace (pp : RectPackerModel P) (gs : Pair → ℕ × ℕ)
    (pairs : List Pair) (align : Option ℕ) : List ((ℕ × ℕ) × ℕ) :=
  let m := minimumAtlasSize align
  OptimumTraceFuel pp gs pairs 8200 (m, m)

theorem claimGrowthStep_sum_lt (total remaining : ℕ) (s : ℕ × ℕ) :
    s.1 + s.2 < (claimGrowthStep total remaining s).1 + (claimGrowthStep total remaining s).2 := by
  unfold claimGrowthStep
  split
  · have h1 : min s.1 s.2 + 1 ≤ NextPowerOfTwoSize (min s.1 s.2 + 1) :=
      le_NextPowerOfTwoSize _
    have h2 : max s.1 s.2 + min s.1 s.2 = s.1 + s.2 := max_add_min s.1 s.2
    simp only
    omega
  · have h1 : s.1 + 1 ≤ NextPowerOfTwoSize (s.1 + 1) := le_NextPowerOfTwoSize _
    have h2 : s.2 + 1 ≤ NextPowerOfTwoSize (s.2 + 1) := le_NextPowerOfTwoSize _
    simp only
    omega

/-- One relation between consecutive trace entries: the earlier attempt
failed, the next size is produced by the claimed growth rule, and the next
size re-entered the loop, i.e. both its sides are `≤ 4096`. -/
def TraceStep (total : ℕ) (a b : ((ℕ × ℕ) × ℕ)) : Prop :=
  a.2 ≠ 0 ∧ b.1 = claimGrowthStep total a.2 a.1 ∧ b.1.1 ≤ 4096 ∧ b.1.2 ≤ 4096

/-- Unfolding equation for `OptimumTraceFuel` at positive fuel, with the
growth expression recognised as `claimGrowthStep` (they are definitionally
the same term). -/
theorem OptimumTraceFuel_succ (pp : RectPackerModel P) (gs : Pair → ℕ × ℕ)
    (pairs : List Pair) (f : ℕ) (cur : ℕ × ℕ) :
    OptimumTraceFuel pp gs pairs (f + 1) cur =
      if (PairsFitInAtlasOfSize pp gs pairs cur [] (pp.factory cur.1 cur.2)).1 = 0 then
        [(cur, (PairsFitInAtlasOfSize pp gs pairs cur [] (pp.factory cur.1 cur.2)).1)]
      else if (claimGrowthStep pairs.length
            (PairsFitInAtlasOfSize pp gs pairs cur [] (pp.factory cur.1 cur.2)).1 cur).1 ≤ 4096 ∧
          (claimGrowthStep pairs.length
            (PairsFitInAtlasOfSize pp gs pairs cur [] (pp.factory cur.1 cur.2)).1 cur).2 ≤ 4096 then
        (cur, (PairsFitInAtlasOfSize pp gs pairs cur [] (pp.factory cur.1 cur.2)).1) ::
          OptimumTraceFuel pp gs pairs f
            (claimGrowthStep pairs.length
              (PairsFitInAtlasOfSize pp gs pairs cur [] (pp.factory cur.1 cur.2)).1 cur)
      else [(cur, (PairsFitInAtlasOfSize pp gs pairs cur [] (pp.factory cur.1 cur.2)).1)] :=
  rfl

/-- Unfolding equation for `OptimumLoopFuel` at positive fuel. -/
theorem OptimumLoopFuel_succ (pp : RectPackerModel P) (gs : Pair → ℕ × ℕ)
    (pairs : List Pair) (f : ℕ) (cur : ℕ × ℕ) :
    OptimumLoopFuel pp gs pairs (f + 1) cur =
      if (PairsFitInAtlasOfSize pp gs pairs cur [] (pp.factory cur.1 cur.2)).1 = 0 then
        (cur, some (PairsFitInAtlasOfSize pp gs pairs cur [] (pp.factory cur.1 cur.2)).2.2,
         (PairsFitInAtlasOfSize pp gs pairs cur [] (pp.factory cur.1 cur.2)).2.1)
      else if (claimGrowthStep pairs.length
            (PairsFitInAtlasOfSize pp gs pairs cur [] (pp.factory cur.1 cur.2)).1 cur).1 ≤ 4096 ∧
          (claimGrowthStep pairs.length
            (PairsFitInAtlasOfSize pp gs pairs cur [] (pp.factory cur.1 cur.2)).1 cur).2 ≤ 4096 then
        OptimumLoopFuel pp gs pairs f
          (claimGrowthStep pairs.length
            (PairsFitInAtlasOfSize pp gs pairs cur [] (pp.factory cur.1 cur.2)).1 cur)
      else ((0, 0), none,
        (PairsFitInAtlasOfSize pp gs pairs cur [] (pp.factory cur.1 cur.2)).2.1) :=
  rfl

/-- Full characterisation of the search loop at any sufficient fuel:
the trace starts at the given size, every entry records the remaining-pairs
count of a fresh packing attempt at that size, consecutive entries are
linked by the growth rule, and the function's result is the last attempted
size when that attempt succeeded and `(0, 0)` otherwise — in which case the
size grown from the last attempt exceeds `4096` on at least one side. -/
theorem optimumFuel_spec (pp : RectPackerModel P) (gs : Pair → ℕ × ℕ) (pairs : List Pair) :
    ∀ (fuel : ℕ) (cur : ℕ × ℕ), 8193 - (cur.1 + cur.2) < fuel →
      (OptimumTraceFuel pp gs pairs fuel cur).head?.map Prod.fst = some cur ∧
      (∀ e ∈ OptimumTraceFuel pp gs pairs fuel cur,
        e.2 = RemainingAt pp gs pairs e.1) ∧
      List.Chain' (TraceStep pairs.length) (OptimumTraceFuel pp gs pairs fuel cur) ∧
      (∀ l, (OptimumTraceFuel pp gs pairs fuel cur).getLast? = some l →
        (l.2 = 0 → (OptimumLoopFuel pp gs pairs fuel cur).1 = l.1) ∧
        (l.2 ≠ 0 → (OptimumLoopFuel pp gs pairs fuel cur).1 = (0, 0) ∧
          (4096 < (claimGrowthStep pairs.length l.2 l.1).1 ∨
           4096 < (claimGrowthStep pairs.length l.2 l.1).2))) := by
  intro fuel
  induction fuel with
  | zero => intro cur h; omega
  | succ f ih =>
    intro cur _
    by_cases hrem : (PairsFitInAtlasOfSize pp gs pairs cur [] (pp.factory cur.1 cur.2)).1 = 0
    · rw [OptimumTraceFuel_succ, if_pos hrem, OptimumLoopFuel_succ, if_pos hrem]
      refine ⟨rfl, ?_, ?_, ?_⟩
      · intro e he
        rw [List.mem_singleton] at he
        subst he
        rfl
      · simp
      · intro l hl
        simp only [List.getLast?_singleton, Option.some_inj] at hl
        subst hl
        exact ⟨fun _ => rfl, fun hne => absurd hrem hne⟩
    · set next := claimGrowthStep pairs.length
        (PairsFitInAtlasOfSize pp gs pairs cur [] (pp.factory cur.1 cur.2)).1 cur with hnext
      by_cases hguard : next.1 ≤ 4096 ∧ next.2 ≤ 4096
      · have hsum : cur.1 + cur.2 < next.1 + next.2 := by
          rw [hnext]; exact claimGrowthStep_sum_lt _ _ _
        have hfuel' : 8193 - (next.1 + next.2) < f := by omega
        obtain ⟨ihHead, ihRem, ihChain, ihLast⟩ := ih next hfuel'
        have htrace : OptimumTraceFuel pp gs pairs (f + 1) cur =
            (cur, (PairsFitInAtlasOfSize pp gs pairs cur [] (pp.factory cur.1 cur.2)).1) ::
              OptimumTraceFuel pp gs pairs f next := by
          rw [OptimumTraceFuel_succ, if_neg hrem, if_pos hguard]
        have hloop : OptimumLoopFuel pp gs pairs (f + 1) cur =
            OptimumLoopFuel pp gs pairs f next := by
          rw [OptimumLoopFuel_succ, if_neg hrem, if_pos hguard]
        have hTne : OptimumTraceFuel pp gs pairs f next ≠ [] := by
          intro hnil
          rw [hnil] at ihHead
          simp at ihHead
        have hheadfst : ∀ y ∈ (OptimumTraceFuel pp gs pairs f next).head?, y.1 = next := by
          intro y hy
          cases hh : (OptimumTraceFuel pp gs pairs f next).head? with
          | none => rw [hh] at hy; simp at hy
          | some z =>
            rw [hh] at hy
            simp only [Option.mem_def, Option.some_inj] at hy
            subst hy
            rw [hh] at ihHead
            simpa using ihHead
        refine ⟨?_, ?_, ?_, ?_⟩
        · rw [htrace]; rfl
        · intro e he
          rw [htrace] at he
          rcases List.mem_cons.mp he with h | h
          · subst h; rfl
          · exact ihRem e h
        · rw [htrace, List.chain'_cons']
          refine ⟨?_, ihChain⟩
          intro y hy
          have hy1 : y.1 = next := hheadfst y hy
          exact ⟨hrem, by rw [hy1, hnext], by rw [hy1]; exact hguard.1,
            by rw [hy1]; exact hguard.2⟩
        · intro l hl
          rw [htrace] at hl
          rw [List.getLast?_cons, List.getLast?_eq_getLast_of_ne_nil hTne] at hl
          simp only [Option.getD_some] at hl
          rw [hloop]
          exact ihLast l (by rw [List.getLast?_eq_getLast_of_ne_nil hTne, hl])
      · have htrace : OptimumTraceFuel pp gs pairs (f + 1) cur =
            [(cur, (PairsFitInAtlasOfSize pp gs pairs cur [] (pp.factory cur.1 cur.2)).1)] := by
          rw [OptimumTraceFuel_succ, if_neg hrem, if_neg]
          rw [← hnext]
          exact hguard
        have hloop : (OptimumLoopFuel pp gs pairs (f + 1) cur).1 = (0, 0) := by
          rw [OptimumLoopFuel_succ, if_neg hrem, if_neg]
          rw [← hnext]
          exact hguard
        refine ⟨?_, ?_, ?_, ?_⟩
        · rw [htrace]; rfl
        · intro e he
          rw [htrace, List.mem_singleton] at he
          subst he; rfl
        · rw [htrace]; simp
        · intro l hl
          rw [htrace, List.getLast?_singleton, Option.some_inj] at hl
          subst hl
          refine ⟨fun h0 => absurd h0 hrem, fun _ => ⟨hloop, ?_⟩⟩
          rw [← hnext]
          omega

/-- C1 (amended): for every packer, glyph-size map, pair set and minimum
alignment, the atlas size search of `OptimumAtlasSizeForFontGlyphPairs`
starts at the minimum square size, attempts to pack all pairs at each
candidate size, and on a packing failure with `remaining` unpacked pairs
grows the sides by `claimGrowthStep` — the shorter side to the next power
of two when `remaining < ceil(total/2)` (the source writes the longer side
first, so the axes may swap), both sides otherwise — and it returns
`(0, 0)` exactly when the growth sequence produces a size with EITHER side
exceeding `4096` (not necessarily both) before a packing attempt succeeds. -/
theorem C1_amended (pp : RectPackerModel P) (gs : Pair → ℕ × ℕ)
    (pairs : List Pair) (align : Option ℕ) :
    (OptimumAtlasTrace pp gs pairs align).head?.map Prod.fst =
      some (minimumAtlasSize align, minimumAtlasSize align) ∧
    (∀ e ∈ OptimumAtlasTrace pp gs pairs align, e.2 = RemainingAt pp gs pairs e.1) ∧
    List.Chain' (TraceStep pairs.length) (OptimumAtlasTrace pp gs pairs align) ∧
    (∀ l, (OptimumAtlasTrace pp gs pairs align).getLast? = some l →
      (l.2 = 0 → (OptimumAtlasSizeForFontGlyphPairs pp gs pairs align).1 = l.1) ∧
      (l.2 ≠ 0 → (OptimumAtlasSizeForFontGlyphPairs pp gs pairs align).1 = (0, 0) ∧
        (4096 < (claimGrowthStep pairs.length l.2 l.1).1 ∨
         4096 < (claimGrowthStep pairs.length l.2 l.1).2))) :=
  optimumFuel_spec pp gs pairs 8200
    (minimumAtlasSize align, minimumAtlasSize align) (by omega)

/-- A concrete deterministic single-shelf packer, one admissible instance of
the abstract `GrRectanizer` interface: rectangles are placed left to right
at `y = 0`; state is `(W, H, cursor)`. -/
def rowPackerModel : RectPackerModel (ℕ × ℕ × ℕ) :=
  { factory := fun w h => (w, h, 0),
    addRect := fun s w h =>
      if s.2.2 + w ≤ s.1 ∧ h ≤ s.2.1 then some ((s.2.2, 0), (s.1, s.2.1, s.2.2 + w))
      else none }

/-- Glyph sizes for the C1 counterexample: two 1×1 glyphs and one glyph
6000 pixels tall, which fits in no atlas whose height is ≤ 4096. -/
def tallGlyphSizes : ℕ → ℕ × ℕ := fun p => if p = 2 then (1, 6000) else (1, 1)

/-- C1, the claim as stated, is false: with three pairs of which only the
tall one fails to pack, every attempt leaves `remaining = 1 < ceil(3/2) = 2`,
so only the shorter side grows; the search dies at attempt `(4096, 4096)`
whose growth `(4096, 8192)` exceeds `4096` on ONE side only — the width
`4096` never exceeds `4096` — yet the function returns `(0, 0)`. -/
theorem C1_counterexample :
    (OptimumAtlasSizeForFontGlyphPairs rowPackerModel tallGlyphSizes [0, 1, 2] none).1 = (0, 0) ∧
    (OptimumAtlasTrace rowPackerModel tallGlyphSizes [0, 1, 2] none).getLast? =
      some ((4096, 4096), 1) ∧
    claimGrowthStep 3 1 (4096, 4096) = (4096, 8192) ∧
    ¬(4096 < 4096 ∧ 4096 < 8192) := by
  refine ⟨by decide, by decide, by decide, by decide⟩

/-!
## The signed-distance-field transform

`ConvertBitmapToSignedDistanceField` (text_render_context_skia.cc:197-307).
The source computes with `float` (`Scalar`); exact float arithmetic is not
shallowly statable, so the scalar type, its ordering, `hypot` and the final
clamp-scale-truncate quantisation are abstracted into an oracle record.
Loop bounds, index arithmetic (including the `uint16_t` wraparound the
source relies on) and every buffer access are modelled exactly; every read
and write is bounds-checked and a result of `none` means the C++ accessed
memory outside `distance_map`, `boundary_point_map` or `pixels` —
undefined behaviour.
-/

/-- Scalar oracle for the SDF transform: `zero` is the vector
default-initialisation value, `distUnit = 1`, `distDiag = sqrt(2)`,
`ltb`/`add`/`neg` the float operations, `hypotNat`/`hypotInt` the two uses
of `hypot`, and `quantize` the final
`((clamp(d, ±13.5) / 13.5 + 1) / 2) * 255` cast to `uint8_t`. -/
structure SdfOps (α : Type) where
  zero : α
  distUnit : α
  distDiag : α
  ltb : α → α → Bool
  add : α → α → α
  neg : α → α
  hypotNat : ℕ → ℕ → α
  hypotInt : ℤ → ℤ → α
  quantize : α → ℕ

variable {α : Type}

/-- The three buffers of the transform: the caller's pixel buffer, the
`distance_map` and the `boundary_point_map` (both of size `width * height`). -/
structure SdfState (α : Type) where
  pixels : List ℕ
  distanceMap : List α
  boundaryPointMap : List (ℕ × ℕ)

/-- Bounds-checked store; `none` models an out-of-bounds write. -/
def lset? {β : Type} (l : List β) (i : ℕ) (v : β) : Option (List β) :=
  if i < l.length then some (l.set i v) else none

/-- `image(_x, _y)`: `pixels[(_y)*width + (_x)] > 0x7f`, bounds-checked. -/
def imageAt (st : SdfState α) (W x y : ℕ) : Option Bool :=
  (st.pixels[y * W + x]?).map (fun b => decide (127 < b))

/-- `distance(_x, _y)` read: `distance_map[(_y)*width + (_x)]`. -/
def readDistance (st : SdfState α) (W x y : ℕ) : Option α :=
  st.distanceMap[y * W + x]?

/-- `nearestpt(_x, _y)` read. -/
def readNearest (st : SdfState α) (W x y : ℕ) : Option (ℕ × ℕ) :=
  st.boundaryPointMap[y * W + x]?

/-- `distance(_x, _y) = v`. -/
def writeDistance (st : SdfState α) (W x y : ℕ) (v : α) : Option (SdfState α) :=
  (lset? st.distanceMap (y * W + x) v).map (fun d => { st with distanceMap := d })

/-- `nearestpt(_x, _y) = v`. -/
def writeNearest (st : SdfState α) (W x y : ℕ) (v : ℕ × ℕ) : Option (SdfState α) :=
  (lset? st.boundaryPointMap (y * W + x) v).map (fun d => { st with boundaryPointMap := d })

/-- `pixels[y * width + x] = v`. -/
def writePixel (st : SdfState α) (W x y : ℕ) (v : ℕ) : Option (SdfState α) :=
  (lset? st.pixels (y * W + x) v).map (fun d => { st with pixels := d })

/-- Initialization phase (lines 222-227): set every distance to
`maxDist = hypot(width, height)` and zero the nearest-point map. -/
def sdfInit (o : SdfOps α) (W H : ℕ) (st : SdfState α) : Option (SdfState α) :=
  (List.range H).foldlM (fun st y =>
    (List.range W).foldlM (fun st x => do
      let st ← writeDistance st W x y (o.hypotNat W H)
      writeNearest st W x y (0, 0)) st) st

/-- Marking a boundary pixel (lines 236-237). -/
def sdfMarkBoundary (o : SdfOps α) (W : ℕ) (st : SdfState α) (x y : ℕ) :
    Option (SdfState α) := do
  let st ← writeDistance st W x y o.zero
  writeNearest st W x y (x, y)

/-- Immediate interior/exterior phase (lines 231-240): `y = 1; y < height-1`
and `x = 1; x < width-1`, marking pixels whose 4-neighbourhood disagrees.
The `||` chain short-circuits exactly as in the source. -/
def sdfBoundary (o : SdfOps α) (W H : ℕ) (st : SdfState α) : Option (SdfState α) :=
  (List.range' 1 (H - 2)).foldlM (fun st y =>
    (List.range' 1 (W - 2)).foldlM (fun st x => do
      let inside ← imageAt st W x y
      let c1 ← imageAt st W (x - 1) y
      if c1 ≠ inside then sdfMarkBoundary o W st x y
      else do
        let c2 ← imageAt st W (x + 1) y
        if c2 ≠ inside then sdfMarkBoundary o W st x y
        else do
          let c3 ← imageAt st W x (y - 1)
          if c3 ≠ inside then sdfMarkBoundary o W st x y
          else do
            let c4 ← imageAt st W x (y + 1)
            if c4 ≠ inside then sdfMarkBoundary o W st x y
            else pure st) st) st

/-- One `if` block of the dead-reckoning passes (lines 245-248 and its
seven textual copies, which differ only in the neighbour `(nx, ny)` and the
step): if `distance(nx, ny) + step < distance(x, y)`, copy
`nearestpt(x, y) = nearestpt(nx, ny)` and recompute
`distance(x, y) = hypot(x - nearestpt(x, y).x, y - nearestpt(x, y).y)`. -/
def sdfRelax (o : SdfOps α) (W : ℕ) (st : SdfState α) (x y nx ny : ℕ) (step : α) :
    Option (SdfState α) := do
  let dn ← readDistance st W nx ny
  let dc ← readDistance st W x y
  if o.ltb (o.add dn step) dc then do
    let np ← readNearest st W nx ny
    let st ← writeNearest st W x y np
    writeDistance st W x y (o.hypotInt ((x : ℤ) - np.1) ((y : ℤ) - np.2))
  else pure st

/-- The body of the forward dead-reckoning pass at `(x, y)` (lines 245-260):
four relaxations against up-left (diagonal), up (unit), up-right (diagonal)
and left (unit).  The loops only ever call this with `x, y ≥ 1`, where the
truncated subtraction below agrees with the C `int` arithmetic. -/
def sdfForwardBody (o : SdfOps α) (W : ℕ) (st : SdfState α) (x y : ℕ) :
    Option (SdfState α) := do
  let st ← sdfRelax o W st x y (x - 1) (y - 1) o.distDiag
  let st ← sdfRelax o W st x y x (y - 1) o.distUnit
  let st ← sdfRelax o W st x y (x + 1) (y - 1) o.distDiag
  sdfRelax o W st x y (x - 1) y o.distUnit

/-- Forward dead-reckoning pass (lines 243-262): `y = 1; y < height - 2`
and `x = 1; x < width - 2` — note `height - 2` and `width - 2`, one row and
one column short of the interior (`height - 2` is computed in `int`, so for
`height < 3` the loop body never runs and the truncated subtraction below
is again faithful). -/
def sdfForward (o : SdfOps α) (W H : ℕ) (st : SdfState α) : Option (SdfState α) :=
  (List.range' 1 (H - 3)).foldlM (fun st y =>
    (List.range' 1 (W - 3)).foldlM (fun st x => sdfForwardBody o W st x y) st) st

/-- The body of the backward pass at `(x, y)` (lines 267-282): four
relaxations against right (unit), down-left (diagonal), down (unit) and
down-right (diagonal). -/
def sdfBackwardBody (o : SdfOps α) (W : ℕ) (st : SdfState α) (x y : ℕ) :
    Option (SdfState α) := do
  let st ← sdfRelax o W st x y (x + 1) y o.distUnit
  let st ← sdfRelax o W st x y (x - 1) (y + 1) o.distDiag
  let st ← sdfRelax o W st x y x (y + 1) o.distUnit
  sdfRelax o W st x y (x + 1) (y + 1) o.distDiag

/-- One row of the backward pass: `for (uint16_t x = ...; x >= 1; --x)`,
called with the initial value of `x`; since `x` is unsigned the condition
`x >= 1` fails only at `x = 0`. -/
def sdfBackwardRow (o : SdfOps α) (W y : ℕ) : ℕ → SdfState α → Option (SdfState α)
  | 0, st => some st
  | x + 1, st => do
    let st ← sdfBackwardBody o W st (x + 1) y
    sdfBackwardRow o W y x st

/-- Backward dead-reckoning pass (lines 265-284):
`for (uint16_t y = height - 2; y >= 1; --y)` with the row counter
re-initialised to `uint16_t(width - 2)` on every row.  The caller passes
the initial `y`, i.e. `uint16_t(height - 2)` — `int` subtraction reduced
mod `2^16`, which is `65535` when `height = 1`. -/
def sdfBackward (o : SdfOps α) (W : ℕ) : ℕ → SdfState α → Option (SdfState α)
  | 0, st => some st
  | y + 1, st => do
    let st ← sdfBackwardRow o W (y + 1) (((W : ℤ) - 2) % 65536).toNat st
    sdfBackward o W y st

/-- Interior negation and quantization pass (lines 289-302): for every
pixel, negate the distance if the pixel is outside, then write the
quantised byte into the pixel buffer. -/
def sdfFinalPass (o : SdfOps α) (W H : ℕ) (st : SdfState α) : Option (SdfState α) :=
  (List.range H).foldlM (fun st y =>
    (List.range W).foldlM (fun st x => do
      let inside ← imageAt st W x y
      let st ← if inside = false then do
          let d ← readDistance st W x y
          writeDistance st W x y (o.neg d)
        else pure st
      let d ← readDistance st W x y
      writePixel st W x y (o.quantize d)) st) st

/-- `ConvertBitmapToSignedDistanceField` (text_render_context_skia.cc:197).
A null pixel pointer, like `width == 0 || height == 0`, returns the buffer
untouched (the source's first early return).  A result of `none` means the
C++ accessed one of the three buffers out of bounds. -/
def ConvertBitmapToSignedDistanceField (o : SdfOps α) (pixels : List ℕ)
    (width height : ℕ) : Option (List ℕ) :=
  if width = 0 ∨ height = 0 then some pixels
  else do
    let st0 : SdfState α :=
      { pixels := pixels,
        distanceMap := List.replicate (width * height) o.zero,
        boundaryPointMap := List.replicate (width * height) (0, 0) }
    let st1 ← sdfInit o width height st0
    let st2 ← sdfBoundary o width height st1
    let st3 ← sdfForward o width height st2
    let st4 ← sdfBackward o width (((height : ℤ) - 2) % 65536).toNat st3
    let st5 ← sdfFinalPass o width height st4
    pure st5.pixels

/-- C2: the claim is right and the code is wrong.  The claim (with the
spec) requires `ConvertBitmapToSignedDistanceField` to access only indices
inside the `W * H` buffers, in particular for `W == 1` or `H == 1`.  But at
`width = 3, height = 1` the backward pass initialises its unsigned row
counter to `uint16_t(height - 2) = 65535`, and its first step reads
`distance_map[65535 * 3 + (1 + 1)] = distance_map[196607]` — far outside
the 3-element buffer — for every scalar oracle: the checked evaluation
aborts with `none`. -/
theorem C2_code_bug : ∀ (α : Type) (o : SdfOps α),
    ConvertBitmapToSignedDistanceField o [128, 128, 128] 3 1 = none := by
  intro α o
  rfl

/-!
## Visit order and neighbourhood structure of the two dead-reckoning passes
-/

/-- The pixels visited by the forward pass in visit order, read off the
source loops `y = 1; y < height - 2` and `x = 1; x < width - 2`. -/
def sdfForwardVisits (W H : ℕ) : List (ℕ × ℕ) :=
  (List.range' 1 (H - 3)).flatMap (fun y => (List.range' 1 (W - 3)).map (fun x => (x, y)))

/-- The pixels visited by the backward pass in visit order, read off the
source loops `y = uint16_t(height - 2); y >= 1; --y` and
`x = uint16_t(width - 2); x >= 1; --x`. -/
def sdfBackwardVisits (W H : ℕ) : List (ℕ × ℕ) :=
  ((List.range' 1 (((H : ℤ) - 2) % 65536).toNat).reverse).flatMap (fun y =>
    ((List.range' 1 (((W : ℤ) - 2) % 65536).toNat).reverse).map (fun x => (x, y)))

/-- The visit set the claim asserts for both passes: row order over the
full interior `1 ≤ x ≤ W - 2`, `1 ≤ y ≤ H - 2`. -/
def claimedInteriorVisits (W H : ℕ) : List (ℕ × ℕ) :=
  (List.range' 1 (H - 2)).flatMap (fun y => (List.range' 1 (W - 2)).map (fun x => (x, y)))

/-- A single dead-reckoning relaxation of `(x, y)` against the neighbour at
offset `(dx, dy)` with step `step` — the claim's reading of one `if` block:
if `distance(neighbour) + step < distance(cur)`, copy `nearest` from the
neighbour and recompute `distance(cur) = hypot(cur - nearest(cur))`. -/
def relaxAgainst (o : SdfOps α) (W x y : ℕ) (st : SdfState α)
    (off : (ℤ × ℤ) × α) : Option (SdfState α) :=
  sdfRelax o W st x y ((x : ℤ) + off.1.1).toNat ((y : ℤ) + off.1.2).toNat off.2

/-- Sequential relaxation against a list of neighbour offsets. -/
def relaxSeq (o : SdfOps α) (W : ℕ) (offs : List ((ℤ × ℤ) × α)) (st : SdfState α)
    (x y : ℕ) : Option (SdfState α) :=
  offs.foldlM (fun st off => relaxAgainst o W x y st off) st

/-- The four forward-pass predecessors with their steps, in source order:
up-left (diagonal), up (unit), up-right (diagonal), left (unit). -/
def forwardNeighbors (o : SdfOps α) : List ((ℤ × ℤ) × α) :=
  [((-1, -1), o.distDiag), ((0, -1), o.distUnit), ((1, -1), o.distDiag), ((-1, 0), o.distUnit)]

/-- The four backward-pass successors with their steps, in source order:
right (unit), down-left (diagonal), down (unit), down-right (diagonal). -/
def backwardNeighbors (o : SdfOps α) : List ((ℤ × ℤ) × α) :=
  [((1, 0), o.distUnit), ((-1, 1), o.distDiag), ((0, 1), o.distUnit), ((1, 1), o.distDiag)]

theorem toNat_add_neg_one (x : ℕ) : ((x : ℤ) + (-1)).toNat = x - 1 := by omega

theorem toNat_add_one (x : ℕ) : ((x : ℤ) + 1).toNat = x + 1 := by omega

theorem toNat_add_zero (x : ℕ) : ((x : ℤ) + 0).toNat = x := by omega

/-- The inlined forward-pass body is the sequential relaxation against the
four predecessors (truncated and integer subtraction agree at every `x, y`
here, and the loops only produce `x, y ≥ 1`). -/
theorem sdfForwardBody_eq_relaxSeq (o : SdfOps α) (W : ℕ) (st : SdfState α) (x y : ℕ) :
    sdfForwardBody o W st x y = relaxSeq o W (forwardNeighbors o) st x y := by
  simp only [sdfForwardBody, relaxSeq, forwardNeighbors, List.foldlM_cons, List.foldlM_nil,
    relaxAgainst, toNat_add_neg_one, toNat_add_one, toNat_add_zero, bind_pure]

/-- The inlined backward-pass body is the sequential relaxation against the
four successors. -/
theorem sdfBackwardBody_eq_relaxSeq (o : SdfOps α) (W : ℕ) (st : SdfState α) (x y : ℕ) :
    sdfBackwardBody o W st x y = relaxSeq o W (backwardNeighbors o) st x y := by
  simp only [sdfBackwardBody, relaxSeq, backwardNeighbors, List.foldlM_cons, List.foldlM_nil,
    relaxAgainst, toNat_add_neg_one, toNat_add_one, toNat_add_zero, bind_pure]

/-- Folding over a flattened list is the nested fold (over `Option`). -/
theorem foldlM_bind_option {σ β γ : Type} (f : σ → β → Option σ) (g : γ → List β)
    (l : List γ) (s : σ) :
    (l.flatMap g).foldlM f s = l.foldlM (fun s y => (g y).foldlM f s) s := by
  induction l generalizing s with
  | nil => rfl
  | cons a l ih =>
    rw [List.flatMap_cons, List.foldlM_append, List.foldlM_cons]
    cases h : (g a).foldlM f s with
    | none => rfl
    | some s' => simpa using ih s'

/-- Pointwise-equal bodies fold identically (over `Option`). -/
theorem foldlM_option_congr {σ β : Type} {f g : σ → β → Option σ} (l : List β)
    (h : ∀ s b, f s b = g s b) : ∀ s, l.foldlM f s = l.foldlM g s := by
  induction l with
  | nil => intro s; rfl
  | cons a l ih =>
    intro s
    rw [List.foldlM_cons, List.foldlM_cons, h s a]
    cases g s a with
    | none => rfl
    | some s' => simpa using ih s'

/-- `List.bind` commutes with reversal, row by row. -/
theorem reverse_flatMap {β γ : Type} (l : List γ) (g : γ → List β) :
    (l.flatMap g).reverse = l.reverse.flatMap (fun y => (g y).reverse) := by
  induction l with
  | nil => rfl
  | cons a l ih =>
    rw [List.flatMap_cons, List.reverse_append, ih, List.reverse_cons, List.flatMap_append]
    simp

/-- The backward row loop is a fold over `x = x₀, x₀ - 1, ..., 1`. -/
theorem sdfBackwardRow_eq_fold (o : SdfOps α) (W y : ℕ) :
    ∀ (x : ℕ) (st : SdfState α),
      sdfBackwardRow o W y x st =
        ((List.range' 1 x).reverse).foldlM (fun st x' => sdfBackwardBody o W st x' y) st := by
  intro x
  induction x with
  | zero => intro st; rfl
  | succ n ih =>
    intro st
    rw [List.range'_1_concat, List.reverse_concat, List.foldlM_cons, Nat.add_comm 1 n]
    show (do
      let st ← sdfBackwardBody o W st (n + 1) y
      sdfBackwardRow o W y n st) = _
    cases h : sdfBackwardBody o W st (n + 1) y with
    | none => rfl
    | some st' => simpa [h] using ih st'

/-- The backward pass is a fold over the rows `y = y₀, y₀ - 1, ..., 1`. -/
theorem sdfBackward_eq_fold (o : SdfOps α) (W : ℕ) :
    ∀ (n : ℕ) (st : SdfState α),
      sdfBackward o W n st =
        ((List.range' 1 n).reverse).foldlM
          (fun st y => sdfBackwardRow o W y (((W : ℤ) - 2) % 65536).toNat st) st := by
  intro n
  induction n with
  | zero => intro st; rfl
  | succ n ih =>
    intro st
    rw [List.range'_1_concat, List.reverse_concat, List.foldlM_cons, Nat.add_comm 1 n]
    show (do
      let st ← sdfBackwardRow o W (n + 1) (((W : ℤ) - 2) % 65536).toNat st
      sdfBackward o W n st) = _
    cases h : sdfBackwardRow o W (n + 1) (((W : ℤ) - 2) % 65536).toNat st with
    | none => rfl
    | some st' => simpa [h] using ih st'

/-- The forward pass is the fold of its body over `sdfForwardVisits`. -/
theorem sdfForward_eq_visits_fold (o : SdfOps α) (W H : ℕ) (st : SdfState α) :
    sdfForward o W H st =
      (sdfForwardVisits W H).foldlM (fun st p => sdfForwardBody o W st p.1 p.2) st := by
  rw [sdfForwardVisits, foldlM_bind_option]
  exact (foldlM_option_congr _ (fun s y => by rw [List.foldlM_map]) st).symm

/-- The backward pass, started at `y = uint16_t(height - 2)`, is the fold
of its body over `sdfBackwardVisits`. -/
theorem sdfBackward_eq_visits_fold (o : SdfOps α) (W H : ℕ) (st : SdfState α) :
    sdfBackward o W (((H : ℤ) - 2) % 65536).toNat st =
      (sdfBackwardVisits W H).foldlM (fun st p => sdfBackwardBody o W st p.1 p.2) st := by
  rw [sdfBackward_eq_fold, sdfBackwardVisits, foldlM_bind_option]
  refine foldlM_option_congr _ (fun s y => ?_) st
  rw [sdfBackwardRow_eq_fold, List.foldlM_map]

/-- The backward visit order, for non-degenerate sizes, is exactly the
claimed interior in reverse row order. -/
theorem sdfBackwardVisits_eq_reverse (W H : ℕ) (hW : 2 ≤ W) (hW' : W ≤ 65535)
    (hH : 2 ≤ H) (hH' : H ≤ 65535) :
    sdfBackwardVisits W H = (claimedInteriorVisits W H).reverse := by
  have hx : (((W : ℤ) - 2) % 65536).toNat = W - 2 := by omega
  have hy : (((H : ℤ) - 2) % 65536).toNat = H - 2 := by omega
  rw [sdfBackwardVisits, claimedInteriorVisits, hx, hy, reverse_flatMap]
  refine congrArg _ (funext fun y => ?_)
  simp [List.map_reverse]

/-- C7, the claim as stated, is false at `W = H = 5`: the claimed forward
range contains `(3, 3)` (the full interior of a 5×5 bitmap), but the
forward pass, whose loops stop at `width - 2` and `height - 2` exclusive,
visits only `x, y ∈ {1, 2}`. -/
theorem C7_counterexample :
    sdfForwardVisits 5 5 ≠ claimedInteriorVisits 5 5 ∧
    sdfForwardVisits 5 5 = [(1, 1), (2, 1), (1, 2), (2, 2)] ∧
    (3, 3) ∈ claimedInteriorVisits 5 5 := by
  refine ⟨by decide, by decide, by decide⟩

/-- C7 (amended): for `W, H ≥ 3` (sides within `uint16_t` range), the
forward pass visits exactly `1 ≤ x ≤ W - 3`, `1 ≤ y ≤ H - 3` in row order
— one row and one column SHORT of the claimed `1 ≤ x ≤ W - 2`,
`1 ≤ y ≤ H - 2` — relaxing each pixel from its four predecessors (up-left
with the diagonal step, up with the unit step, up-right diagonal, left
unit), and the backward pass visits the full claimed interior
`1 ≤ x ≤ W - 2`, `1 ≤ y ≤ H - 2` in reverse row order with the symmetric
four successors. -/
theorem C7_amended (o : SdfOps α) (W H : ℕ) (hW : 3 ≤ W) (hH : 3 ≤ H)
    (hW' : W ≤ 65535) (hH' : H ≤ 65535) :
    (∀ st, sdfForward o W H st =
      (sdfForwardVisits W H).foldlM (fun st p => sdfForwardBody o W st p.1 p.2) st) ∧
    sdfForwardVisits W H = claimedInteriorVisits (W - 1) (H - 1) ∧
    (∀ st x y, sdfForwardBody o W st x y = relaxSeq o W (forwardNeighbors o) st x y) ∧
    (∀ st, sdfBackward o W (((H : ℤ) - 2) % 65536).toNat st =
      (sdfBackwardVisits W H).foldlM (fun st p => sdfBackwardBody o W st p.1 p.2) st) ∧
    sdfBackwardVisits W H = (claimedInteriorVisits W H).reverse ∧
    (∀ st x y, sdfBackwardBody o W st x y = relaxSeq o W (backwardNeighbors o) st x y) := by
  refine ⟨fun st => sdfForward_eq_visits_fold o W H st, ?_,
    fun st x y => sdfForwardBody_eq_relaxSeq o W st x y,
    fun st => sdfBackward_eq_visits_fold o W H st,
    sdfBackwardVisits_eq_reverse W H (by omega) hW' (by omega) hH',
    fun st x y => sdfBackwardBody_eq_relaxSeq o W st x y⟩
  simp [sdfForwardVisits, claimedInteriorVisits, Nat.sub_sub]

/-!
## The SDF transform on uniform bitmaps
-/

theorem foldlM_option_pure {σ β : Type} {f : σ → β → Option σ} {l : List β} {s : σ}
    (h : ∀ b ∈ l, f s b = some s) : l.foldlM f s = some s := by
  induction l with
  | nil => rfl
  | cons a l ih =>
    rw [List.foldlM_cons, h a (List.mem_cons_self a l)]
    simpa using ih (fun b hb => h b (List.mem_cons_of_mem a hb))

theorem idx_lt {W H x y : ℕ} (hx : x < W) (hy : y < H) : y * W + x < W * H := by
  calc y * W + x < (y + 1) * W := by
        have : (y + 1) * W = y * W + W := by ring
        omega
    _ ≤ H * W := Nat.mul_le_mul_right W hy
    _ = W * H := Nat.mul_comm H W

theorem lset?_append_cons {β : Type} (l₁ : List β) (a : β) (l₂ : List β) (v : β) :
    lset? (l₁ ++ a :: l₂) l₁.length v = some (l₁ ++ v :: l₂) := by
  rw [lset?, if_pos (by simp)]
  rw [List.set_append_right _ _ (Nat.le_refl _)]
  simp

theorem getElem?_append_cons {β : Type} (l₁ : List β) (a : β) (l₂ : List β) :
    (l₁ ++ a :: l₂)[l₁.length]? = some a := by
  rw [List.getElem?_append_right (Nat.le_refl _)]
  simp

theorem getElem?_replicate_of_lt {β : Type} {n i : ℕ} {a : β} (h : i < n) :
    (List.replicate n a)[i]? = some a := by
  rw [List.getElem?_replicate, if_pos h]

/-- The per-index form of the initialization body: `distance(idx) = maxDist;
nearestpt(idx) = (0, 0)`. -/
def sdfInitCell (o : SdfOps α) (W H : ℕ) (st : SdfState α) (i : ℕ) :
    Option (SdfState α) := do
  let st ← (lset? st.distanceMap i (o.hypotNat W H)).map
    (fun d => { st with distanceMap := d })
  (lset? st.boundaryPointMap i (0, 0)).map (fun d => { st with boundaryPointMap := d })

/-- The row-major index enumeration performed by the `y`/`x` loops. -/
def rowMajorIdx (W H : ℕ) : List ℕ :=
  (List.range H).flatMap (fun y => (List.range W).map (fun x => y * W + x))

theorem rowMajorIdx_eq_range (W H : ℕ) : rowMajorIdx W H = List.range (H * W) := by
  induction H with
  | zero => simp [rowMajorIdx]
  | succ n ih =>
    rw [rowMajorIdx, List.range_succ, List.flatMap_append, ← rowMajorIdx, ih]
    have : (n + 1) * W = n * W + W := by ring
    rw [this, List.range_add]
    simp [List.flatMap_cons]

theorem sdfInit_eq_idx_fold (o : SdfOps α) (W H : ℕ) (st : SdfState α) :
    sdfInit o W H st = (rowMajorIdx W H).foldlM (sdfInitCell o W H) st := by
  rw [rowMajorIdx, foldlM_bind_option]
  exact foldlM_option_congr _ (fun s y => by rw [List.foldlM_map]; rfl) st |>.symm

theorem sdfInitSeg (o : SdfOps α) (W H : ℕ) (px : List ℕ) :
    ∀ (dr : List α) (nr : List (ℕ × ℕ)) (dd : List α) (nd : List (ℕ × ℕ)),
      dd.length = nd.length → dr.length = nr.length →
      (List.range' dd.length dr.length).foldlM (sdfInitCell o W H)
          ⟨px, dd ++ dr, nd ++ nr⟩ =
        some ⟨px, dd ++ List.replicate dr.length (o.hypotNat W H),
              nd ++ List.replicate dr.length (0, 0)⟩ := by
  intro dr
  induction dr with
  | nil =>
    intro nr dd nd _ hlen2
    have : nr = [] := List.eq_nil_of_length_eq_zero hlen2.symm
    subst this
    rfl
  | cons a dr ih =>
    intro nr dd nd hlen hlen2
    cases nr with
    | nil => simp at hlen2
    | cons b nr =>
      simp only [List.length_cons]
      rw [List.range'_succ, List.foldlM_cons]
      have hcell : sdfInitCell o W H ⟨px, dd ++ a :: dr, nd ++ b :: nr⟩ dd.length =
          some ⟨px, dd ++ o.hypotNat W H :: dr, nd ++ (0, 0) :: nr⟩ := by
        rw [sdfInitCell, lset?_append_cons]
        simp only [Option.map_some', Option.pure_def, Option.bind_eq_bind, Option.some_bind]
        rw [show (dd.length : ℕ) = nd.length from hlen, lset?_append_cons]
        rfl
      rw [hcell]
      have hstep := ih nr (dd ++ [o.hypotNat W H]) (nd ++ [(0, 0)])
        (by simp [hlen]) (by simpa using hlen2)
      simp only [List.length_append, List.length_singleton] at hstep
      simp only [Option.pure_def, Option.bind_eq_bind, Option.some_bind]
      calc (List.range' (dd.length + 1) dr.length).foldlM (sdfInitCell o W H)
            ⟨px, dd ++ o.hypotNat W H :: dr, nd ++ (0, 0) :: nr⟩ =
          (List.range' (dd.length + 1) dr.length).foldlM (sdfInitCell o W H)
            ⟨px, (dd ++ [o.hypotNat W H]) ++ dr, (nd ++ [(0, 0)]) ++ nr⟩ := by
            simp
        _ = some ⟨px, (dd ++ [o.hypotNat W H]) ++ List.replicate dr.length (o.hypotNat W H),
              (nd ++ [(0, 0)]) ++ List.replicate dr.length (0, 0)⟩ := hstep
        _ = some ⟨px, dd ++ List.replicate (dr.length + 1) (o.hypotNat W H),
              nd ++ List.replicate (dr.length + 1) (0, 0)⟩ := by
            simp [List.replicate_succ]

/-- The uniform state after initialization: every distance is `maxDist`,
every nearest point is `(0, 0)`. -/
def uniformSdfState (o : SdfOps α) (W H : ℕ) (px : List ℕ) : SdfState α :=
  ⟨px, List.replicate (W * H) (o.hypotNat W H), List.replicate (W * H) (0, 0)⟩

theorem sdfInit_uniform (o : SdfOps α) (W H : ℕ) (px : List ℕ)
    (d0 : List α) (n0 : List (ℕ × ℕ))
    (hd : d0.length = W * H) (hn : n0.length = W * H) :
    sdfInit o W H ⟨px, d0, n0⟩ = some (uniformSdfState o W H px) := by
  rw [sdfInit_eq_idx_fold, rowMajorIdx_eq_range, List.range_eq_range']
  have h := sdfInitSeg o W H px d0 n0 [] [] rfl (by rw [hd, hn])
  simp only [List.length_nil, List.nil_append] at h
  rw [show H * W = d0.length by rw [hd, Nat.mul_comm], h]
  rw [uniformSdfState, hd]

theorem imageAt_const {W H x y : ℕ} {st : SdfState α} {v : Bool}
    (hpx : st.pixels.length = W * H)
    (hv : ∀ b ∈ st.pixels, decide (127 < b) = v)
    (hx : x < W) (hy : y < H) : imageAt st W x y = some v := by
  have hidx : y * W + x < st.pixels.length := by rw [hpx]; exact idx_lt hx hy
  rw [imageAt, List.getElem?_eq_getElem hidx]
  simp only [Option.map_some']
  rw [hv _ (List.getElem_mem hidx)]

theorem sdfBoundary_uniform (o : SdfOps α) (W H : ℕ) (st : SdfState α) (v : Bool)
    (hpx : st.pixels.length = W * H)
    (hv : ∀ b ∈ st.pixels, decide (127 < b) = v) :
    sdfBoundary o W H st = some st := by
  rw [sdfBoundary]
  refine foldlM_option_pure (fun y hy => foldlM_option_pure (fun x hx => ?_))
  have hyb : 1 ≤ y ∧ y < 1 + (H - 2) := by
    rw [List.mem_range'] at hy
    obtain ⟨i, h1, h2⟩ := hy
    omega
  have hxb : 1 ≤ x ∧ x < 1 + (W - 2) := by
    rw [List.mem_range'] at hx
    obtain ⟨i, h1, h2⟩ := hx
    omega
  have h0 : imageAt st W x y = some v := imageAt_const hpx hv (by omega) (by omega)
  have h1 : imageAt st W (x - 1) y = some v := imageAt_const hpx hv (by omega) (by omega)
  have h2 : imageAt st W (x + 1) y = some v := imageAt_const hpx hv (by omega) (by omega)
  have h3 : imageAt st W x (y - 1) = some v := imageAt_const hpx hv (by omega) (by omega)
  have h4 : imageAt st W x (y + 1) = some v := imageAt_const hpx hv (by omega) (by omega)
  simp [h0, h1, h2, h3, h4]

theorem readDistance_uniform {o : SdfOps α} {W H x y : ℕ} {st : SdfState α}
    (hd : st.distanceMap = List.replicate (W * H) (o.hypotNat W H))
    (hx : x < W) (hy : y < H) :
    readDistance st W x y = some (o.hypotNat W H) := by
  rw [readDistance, hd, getElem?_replicate_of_lt (idx_lt hx hy)]

theorem sdfRelax_uniform (o : SdfOps α) (W H x y nx ny : ℕ) (st : SdfState α) (step : α)
    (hd : st.distanceMap = List.replicate (W * H) (o.hypotNat W H))
    (hlt : o.ltb (o.add (o.hypotNat W H) step) (o.hypotNat W H) = false)
    (hx : x < W) (hy : y < H) (hnx : nx < W) (hny : ny < H) :
    sdfRelax o W st x y nx ny step = some st := by
  rw [sdfRelax]
  rw [readDistance_uniform hd hnx hny, readDistance_uniform hd hx hy]
  simp [hlt]

theorem sdfForwardBody_uniform (o : SdfOps α) (W H x y : ℕ) (st : SdfState α)
    (hd : st.distanceMap = List.replicate (W * H) (o.hypotNat W H))
    (hltU : o.ltb (o.add (o.hypotNat W H) o.distUnit) (o.hypotNat W H) = false)
    (hltD : o.ltb (o.add (o.hypotNat W H) o.distDiag) (o.hypotNat W H) = false)
    (hx : x + 1 < W) (hy : y < H) :
    sdfForwardBody o W st x y = some st := by
  have r1 := sdfRelax_uniform o W H x y (x - 1) (y - 1) st o.distDiag hd hltD (by omega) hy
    (by omega) (by omega)
  have r2 := sdfRelax_uniform o W H x y x (y - 1) st o.distUnit hd hltU (by omega) hy
    (by omega) (by omega)
  have r3 := sdfRelax_uniform o W H x y (x + 1) (y - 1) st o.distDiag hd hltD (by omega) hy
    (by omega) (by omega)
  have r4 := sdfRelax_uniform o W H x y (x - 1) y st o.distUnit hd hltU (by omega) hy
    (by omega) hy
  simp [sdfForwardBody, r1, r2, r3, r4]

theorem sdfBackwardBody_uniform (o : SdfOps α) (W H x y : ℕ) (st : SdfState α)
    (hd : st.distanceMap = List.replicate (W * H) (o.hypotNat W H))
    (hltU : o.ltb (o.add (o.hypotNat W H) o.distUnit) (o.hypotNat W H) = false)
    (hltD : o.ltb (o.add (o.hypotNat W H) o.distDiag) (o.hypotNat W H) = false)
    (hx : x + 1 < W) (hy : y + 1 < H) :
    sdfBackwardBody o W st x y = some st := by
  have r1 := sdfRelax_uniform o W H x y (x + 1) y st o.distUnit hd hltU (by omega) (by omega)
    hx (by omega)
  have r2 := sdfRelax_uniform o W H x y (x - 1) (y + 1) st o.distDiag hd hltD (by omega)
    (by omega) (by omega) hy
  have r3 := sdfRelax_uniform o W H x y x (y + 1) st o.distUnit hd hltU (by omega) (by omega)
    (by omega) hy
  have r4 := sdfRelax_uniform o W H x y (x + 1) (y + 1) st o.distDiag hd hltD (by omega)
    (by omega) hx hy
  simp [sdfBackwardBody, r1, r2, r3, r4]

theorem sdfForward_uniform (o : SdfOps α) (W H : ℕ) (st : SdfState α)
    (hd : st.distanceMap = List.replicate (W * H) (o.hypotNat W H))
    (hltU : o.ltb (o.add (o.hypotNat W H) o.distUnit) (o.hypotNat W H) = false)
    (hltD : o.ltb (o.add (o.hypotNat W H) o.distDiag) (o.hypotNat W H) = false) :
    sdfForward o W H st = some st := by
  rw [sdfForward]
  refine foldlM_option_pure (fun y hy => foldlM_option_pure (fun x hx => ?_))
  have hyb : 1 ≤ y ∧ y < 1 + (H - 3) := by
    rw [List.mem_range'] at hy
    obtain ⟨i, h1, h2⟩ := hy
    omega
  have hxb : 1 ≤ x ∧ x < 1 + (W - 3) := by
    rw [List.mem_range'] at hx
    obtain ⟨i, h1, h2⟩ := hx
    omega
  exact sdfForwardBody_uniform o W H x y st hd hltU hltD (by omega) (by omega)

theorem sdfBackwardRow_uniform (o : SdfOps α) (W H y : ℕ) (st : SdfState α)
    (hd : st.distanceMap = List.replicate (W * H) (o.hypotNat W H))
    (hltU : o.ltb (o.add (o.hypotNat W H) o.distUnit) (o.hypotNat W H) = false)
    (hltD : o.ltb (o.add (o.hypotNat W H) o.distDiag) (o.hypotNat W H) = false)
    (hy : y + 1 < H) :
    ∀ x, x + 1 < W → sdfBackwardRow o W y x st = some st := by
  intro x
  induction x with
  | zero => intro _; rfl
  | succ n ih =>
    intro hx
    rw [sdfBackwardRow]
    rw [sdfBackwardBody_uniform o W H (n + 1) y st hd hltU hltD (by omega) hy]
    simpa using ih (by omega)


theorem sdfBackward_uniform (o : SdfOps α) (W H : ℕ) (st : SdfState α)
    (hW : 2 ≤ W) (hW' : W ≤ 65535)
    (hd : st.distanceMap = List.replicate (W * H) (o.hypotNat W H))
    (hltU : o.ltb (o.add (o.hypotNat W H) o.distUnit) (o.hypotNat W H) = false)
    (hltD : o.ltb (o.add (o.hypotNat W H) o.distDiag) (o.hypotNat W H) = false) :
    ∀ n, n + 1 < H → sdfBackward o W n st = some st := by
  intro n
  induction n with
  | zero => intro _; rfl
  | succ k ih =>
    intro hk
    rw [sdfBackward]
    have hx0 : (((W : ℤ) - 2) % 65536).toNat = W - 2 := by omega
    rw [hx0]
    rw [sdfBackwardRow_uniform o W H (k + 1) st hd hltU hltD (by omega) (W - 2) (by omega)]
    simpa using ih (by omega)

/-- The per-index form of the negation-and-quantization body. -/
def sdfFinalCell (o : SdfOps α) (W : ℕ) (st : SdfState α) (i : ℕ) :
    Option (SdfState α) := do
  let inside ← (st.pixels[i]?).map (fun b => decide (127 < b))
  let st ← if inside = false then do
      let d ← st.distanceMap[i]?
      (lset? st.distanceMap i (o.neg d)).map (fun dd => { st with distanceMap := dd })
    else pure st
  let d ← st.distanceMap[i]?
  (lset? st.pixels i (o.quantize d)).map (fun pp => { st with pixels := pp })

theorem sdfFinalPass_eq_idx_fold (o : SdfOps α) (W H : ℕ) (st : SdfState α) :
    sdfFinalPass o W H st = (rowMajorIdx W H).foldlM (sdfFinalCell o W) st := by
  rw [rowMajorIdx, foldlM_bind_option]
  exact foldlM_option_congr _ (fun s y => by rw [List.foldlM_map]; rfl) st |>.symm

theorem sdfFinalSeg_inside (o : SdfOps α) (W n : ℕ) (m : α) (near : List (ℕ × ℕ)) :
    ∀ (pr pd : List ℕ), pd.length + pr.length = n → (∀ b ∈ pr, 127 < b) →
      (List.range' pd.length pr.length).foldlM (sdfFinalCell o W)
          ⟨pd ++ pr, List.replicate n m, near⟩ =
        some ⟨pd ++ List.replicate pr.length (o.quantize m), List.replicate n m, near⟩ := by
  intro pr
  induction pr with
  | nil => intro pd _ _; rfl
  | cons b pr ih =>
    intro pd hn hb
    simp only [List.length_cons]
    rw [List.range'_succ, List.foldlM_cons]
    have hcell : sdfFinalCell o W ⟨pd ++ b :: pr, List.replicate n m, near⟩ pd.length =
        some ⟨pd ++ o.quantize m :: pr, List.replicate n m, near⟩ := by
      rw [sdfFinalCell, getElem?_append_cons]
      simp only [Option.map_some', Option.pure_def, Option.bind_eq_bind, Option.some_bind]
      rw [if_neg (by simp [decide_eq_true (hb b (List.mem_cons_self b pr))])]
      rw [getElem?_replicate_of_lt (by simp only [List.length_cons] at hn; omega)]
      simp only [Option.some_bind]
      rw [lset?_append_cons]
      rfl
    rw [hcell]
    simp only [Option.pure_def, Option.bind_eq_bind, Option.some_bind]
    have hstep := ih (pd ++ [o.quantize m])
      (by simp only [List.length_append, List.length_singleton]
          simp only [List.length_cons] at hn
          omega)
      (fun c hc => hb c (List.mem_cons_of_mem b hc))
    simp only [List.length_append, List.length_singleton] at hstep
    calc (List.range' (pd.length + 1) pr.length).foldlM (sdfFinalCell o W)
          ⟨pd ++ o.quantize m :: pr, List.replicate n m, near⟩ =
        (List.range' (pd.length + 1) pr.length).foldlM (sdfFinalCell o W)
          ⟨(pd ++ [o.quantize m]) ++ pr, List.replicate n m, near⟩ := by simp
      _ = some ⟨(pd ++ [o.quantize m]) ++ List.replicate pr.length (o.quantize m),
            List.replicate n m, near⟩ := hstep
      _ = some ⟨pd ++ List.replicate (pr.length + 1) (o.quantize m),
            List.replicate n m, near⟩ := by simp [List.replicate_succ]

theorem sdfFinalSeg_outside (o : SdfOps α) (W n : ℕ) (m : α) (near : List (ℕ × ℕ)) :
    ∀ (pr pd : List ℕ) (dn : List α), pd.length + pr.length = n → dn.length = pd.length →
      (∀ b ∈ pr, b ≤ 127) →
      (List.range' pd.length pr.length).foldlM (sdfFinalCell o W)
          ⟨pd ++ pr, dn ++ List.replicate pr.length m, near⟩ =
        some ⟨pd ++ List.replicate pr.length (o.quantize (o.neg m)),
              dn ++ List.replicate pr.length (o.neg m), near⟩ := by
  intro pr
  induction pr with
  | nil => intro pd dn _ _ _; rfl
  | cons b pr ih =>
    intro pd dn hn hdn hb
    simp only [List.length_cons]
    rw [List.range'_succ, List.foldlM_cons]
    have hcell : sdfFinalCell o W
          ⟨pd ++ b :: pr, dn ++ List.replicate (pr.length + 1) m, near⟩ pd.length =
        some ⟨pd ++ o.quantize (o.neg m) :: pr,
              dn ++ o.neg m :: List.replicate pr.length m, near⟩ := by
      rw [sdfFinalCell, getElem?_append_cons]
      simp only [Option.map_some', Option.pure_def, Option.bind_eq_bind, Option.some_bind]
      rw [if_pos (by simp [decide_eq_false
        (Nat.not_lt.mpr (hb b (List.mem_cons_self b pr)))])]
      rw [List.replicate_succ, ← hdn, getElem?_append_cons]
      simp only [Option.pure_def, Option.bind_eq_bind, Option.some_bind]
      rw [lset?_append_cons]
      simp only [Option.map_some', Option.pure_def, Option.bind_eq_bind, Option.some_bind]
      rw [getElem?_append_cons]
      simp only [Option.pure_def, Option.bind_eq_bind, Option.some_bind]
      rw [hdn, lset?_append_cons]
      rfl
    rw [hcell]
    simp only [Option.pure_def, Option.bind_eq_bind, Option.some_bind]
    have hstep := ih (pd ++ [o.quantize (o.neg m)]) (dn ++ [o.neg m])
      (by simp only [List.length_append, List.length_singleton]
          simp only [List.length_cons] at hn
          omega)
      (by simp [hdn])
      (fun c hc => hb c (List.mem_cons_of_mem b hc))
    simp only [List.length_append, List.length_singleton] at hstep
    calc (List.range' (pd.length + 1) pr.length).foldlM (sdfFinalCell o W)
          ⟨pd ++ o.quantize (o.neg m) :: pr, dn ++ o.neg m :: List.replicate pr.length m,
           near⟩ =
        (List.range' (pd.length + 1) pr.length).foldlM (sdfFinalCell o W)
          ⟨(pd ++ [o.quantize (o.neg m)]) ++ pr,
           (dn ++ [o.neg m]) ++ List.replicate pr.length m, near⟩ := by simp
      _ = some ⟨(pd ++ [o.quantize (o.neg m)]) ++ List.replicate pr.length (o.quantize (o.neg m)),
            (dn ++ [o.neg m]) ++ List.replicate pr.length (o.neg m), near⟩ := hstep
      _ = some ⟨pd ++ List.replicate (pr.length + 1) (o.quantize (o.neg m)),
            dn ++ List.replicate (pr.length + 1) (o.neg m), near⟩ := by
          simp [List.replicate_succ]

/-- Running the whole transform on a uniform-side bitmap: the passes leave
the distances at `maxDist = hypot(W, H)` and the output is a constant byte,
`quantize(maxDist)` on all-inside bitmaps and `quantize(-maxDist)` on
all-outside ones. -/
theorem convert_uniform (o : SdfOps α) (W H : ℕ) (px : List ℕ) (v : Bool)
    (hW : 2 ≤ W) (hH : 2 ≤ H) (hW' : W ≤ 65535) (hH' : H ≤ 65535)
    (hlen : px.length = W * H)
    (hv : ∀ b ∈ px, decide (127 < b) = v)
    (hltU : o.ltb (o.add (o.hypotNat W H) o.distUnit) (o.hypotNat W H) = false)
    (hltD : o.ltb (o.add (o.hypotNat W H) o.distDiag) (o.hypotNat W H) = false) :
    ConvertBitmapToSignedDistanceField o px W H =
      some (List.replicate (W * H)
        (if v then o.quantize (o.hypotNat W H) else o.quantize (o.neg (o.hypotNat W H)))) := by
  rw [ConvertBitmapToSignedDistanceField, if_neg (by omega)]
  have h1 := sdfInit_uniform o W H px (List.replicate (W * H) o.zero)
    (List.replicate (W * H) (0, 0)) (by simp) (by simp)
  have h2 := sdfBoundary_uniform o W H (uniformSdfState o W H px) v hlen hv
  have h3 := sdfForward_uniform o W H (uniformSdfState o W H px) rfl hltU hltD
  have hy0 : (((H : ℤ) - 2) % 65536).toNat = H - 2 := by omega
  have h4 : sdfBackward o W (((H : ℤ) - 2) % 65536).toNat (uniformSdfState o W H px) =
      some (uniformSdfState o W H px) := by
    rw [hy0]
    exact sdfBackward_uniform o W H _ hW hW' rfl hltU hltD (H - 2) (by omega)
  have h5 : sdfFinalPass o W H (uniformSdfState o W H px) =
      some ⟨List.replicate (W * H)
          (if v then o.quantize (o.hypotNat W H) else o.quantize (o.neg (o.hypotNat W H))),
        List.replicate (W * H)
          (if v then o.hypotNat W H else o.neg (o.hypotNat W H)),
        List.replicate (W * H) (0, 0)⟩ := by
    rw [sdfFinalPass_eq_idx_fold, rowMajorIdx_eq_range, List.range_eq_range']
    cases v with
    | true =>
      have hin : ∀ b ∈ px, 127 < b := fun b hb => of_decide_eq_true (hv b hb)
      have h := sdfFinalSeg_inside o W (W * H) (o.hypotNat W H)
        (List.replicate (W * H) (0, 0)) px [] (by simpa using hlen) hin
      simp only [List.length_nil, List.nil_append] at h
      rw [show (uniformSdfState o W H px : SdfState α) =
        ⟨px, List.replicate (W * H) (o.hypotNat W H), List.replicate (W * H) (0, 0)⟩
        from rfl]
      rw [show H * W = px.length by rw [hlen, Nat.mul_comm], h, hlen]
      simp
    | false =>
      have hout : ∀ b ∈ px, b ≤ 127 := fun b hb =>
        Nat.not_lt.mp (of_decide_eq_false (hv b hb))
      have h := sdfFinalSeg_outside o W (W * H) (o.hypotNat W H)
        (List.replicate (W * H) (0, 0)) px [] [] (by simpa using hlen) rfl hout
      simp only [List.length_nil, List.nil_append] at h
      rw [show H * W = px.length by rw [hlen, Nat.mul_comm]]
      rw [show (uniformSdfState o W H px : SdfState α) =
        ⟨px, List.replicate px.length (o.hypotNat W H), List.replicate (W * H) (0, 0)⟩ by
          simp [uniformSdfState, hlen]]
      rw [h, hlen]
      simp
  simp only [Option.pure_def, Option.bind_eq_bind, h1, Option.some_bind, h2, h3, h4, h5]

/-- C8 (amended): the claim holds only away from the degenerate sizes
(`W, H ≥ 2`; at `W = 1` or `H = 1` the backward pass runs out of bounds,
see `C2_code_bug`), and the uniform output byte is the quantisation of
`±maxDist = ±hypot(W, H)`, which is the positive-extreme byte `255`
(resp. the negative-extreme `0`) exactly when the `±13.5` clamp saturates,
i.e. when `hypot(W, H) ≥ 13.5`; under those quantisation facts (hypotheses
`255` and `0` below, true of the float code whenever `W² + H² ≥ 182.25`)
the output is uniform and applying the transform twice gives the same
bytes as applying it once. -/
theorem C8_amended (o : SdfOps α) (W H : ℕ) (px : List ℕ)
    (hW : 2 ≤ W) (hH : 2 ≤ H) (hW' : W ≤ 65535) (hH' : H ≤ 65535)
    (hlen : px.length = W * H)
    (hltU : o.ltb (o.add (o.hypotNat W H) o.distUnit) (o.hypotNat W H) = false)
    (hltD : o.ltb (o.add (o.hypotNat W H) o.distDiag) (o.hypotNat W H) = false) :
    ((∀ b ∈ px, 127 < b) → o.quantize (o.hypotNat W H) = 255 →
      ConvertBitmapToSignedDistanceField o px W H = some (List.replicate (W * H) 255) ∧
      ConvertBitmapToSignedDistanceField o (List.replicate (W * H) 255) W H =
        some (List.replicate (W * H) 255)) ∧
    ((∀ b ∈ px, b ≤ 127) → o.quantize (o.neg (o.hypotNat W H)) = 0 →
      ConvertBitmapToSignedDistanceField o px W H = some (List.replicate (W * H) 0) ∧
      ConvertBitmapToSignedDistanceField o (List.replicate (W * H) 0) W H =
        some (List.replicate (W * H) 0)) := by
  constructor
  · intro hin hq
    have h1 := convert_uniform o W H px true hW hH hW' hH' hlen
      (fun b hb => decide_eq_true (hin b hb)) hltU hltD
    have h2 := convert_uniform o W H (List.replicate (W * H) 255) true hW hH hW' hH'
      (by simp)
      (fun b hb => by
        have : b = 255 := (List.eq_of_mem_replicate hb)
        subst this
        decide)
      hltU hltD
    rw [if_pos rfl, hq] at h1 h2
    exact ⟨h1, h2⟩
  · intro hout hq
    have h1 := convert_uniform o W H px false hW hH hW' hH' hlen
      (fun b hb => decide_eq_false (Nat.not_lt.mpr (hout b hb))) hltU hltD
    have h2 := convert_uniform o W H (List.replicate (W * H) 0) false hW hH hW' hH'
      (by simp)
      (fun b hb => by
        have : b = 0 := (List.eq_of_mem_replicate hb)
        subst this
        decide)
      hltU hltD
    rw [if_neg (by decide), hq] at h1 h2
    exact ⟨h1, h2⟩

/-- The exact quantisation formula of the source over `ℚ`:
`((clamp(d, ±13.5) / 13.5 + 1) / 2) * 255`, truncated to a byte (the C++
`float`-to-`uint8_t` cast truncates toward zero, and every clamped value
lands in `[0, 255]`, where truncation is `floor`). -/
def ratQuantize (d : ℚ) : ℕ :=
  (Int.floor ((((max (-(27 / 2 : ℚ)) (min d (27 / 2))) / (27 / 2) + 1) / 2) * 255)).toNat

/-- A concrete rational instantiation of the scalar oracle, used to run the
model on concrete inputs.  `hypot` has no exact rational form, so the two
`hypot` fields are stand-ins (the squared norm, which is `≥ 13.5` whenever
the true `hypot` is for the sizes the witnesses use); the claim theorems
take the float facts they rely on as explicit hypotheses, so nothing below
depends on these stand-ins being `hypot` itself. -/
def ratSdfOps : SdfOps ℚ :=
  { zero := 0, distUnit := 1, distDiag := 99 / 70,
    ltb := fun a b => decide (a < b), add := (· + ·), neg := Neg.neg,
    hypotNat := fun w h => (w * w + h * h : ℚ),
    hypotInt := fun dx dy => (dx * dx + dy * dy : ℚ),
    quantize := ratQuantize }

/-- C8, the claim as stated, is false: it quantifies over every bitmap with
`W ≥ 1, H ≥ 1` whose pixels are all `≥ 128`, but at `W = H = 1` the
transform performs out-of-bounds accesses (the backward pass starts at
`uint16_t(1 - 2) = 65535`), so it produces no well-defined uniform output
at all — the checked evaluation aborts. -/
theorem C8_counterexample :
    ConvertBitmapToSignedDistanceField ratSdfOps [255] 1 1 = none := by
  rfl

/-- C7 witness: the amended visit-order theorem applied at `W = H = 4`
with the concrete rational oracle. -/
theorem C7_witness :
    ((3 ≤ 4 ∧ 4 ≤ 65535) ∧
     ((∀ st, sdfForward ratSdfOps 4 4 st =
        (sdfForwardVisits 4 4).foldlM
          (fun st p => sdfForwardBody ratSdfOps 4 st p.1 p.2) st) ∧
      sdfForwardVisits 4 4 = claimedInteriorVisits (4 - 1) (4 - 1) ∧
      (∀ st x y, sdfForwardBody ratSdfOps 4 st x y =
        relaxSeq ratSdfOps 4 (forwardNeighbors ratSdfOps) st x y) ∧
      (∀ st, sdfBackward ratSdfOps 4 (((4 : ℤ) - 2) % 65536).toNat st =
        (sdfBackwardVisits 4 4).foldlM
          (fun st p => sdfBackwardBody ratSdfOps 4 st p.1 p.2) st) ∧
      sdfBackwardVisits 4 4 = (claimedInteriorVisits 4 4).reverse ∧
      (∀ st x y, sdfBackwardBody ratSdfOps 4 st x y =
        relaxSeq ratSdfOps 4 (backwardNeighbors ratSdfOps) st x y))) :=
  ⟨⟨by decide, by decide⟩,
   C7_amended ratSdfOps 4 4 (by decide) (by decide) (by decide) (by decide)⟩

/-- C8 witness: the amended uniform-bitmap theorem applied at `W = H = 16`
(a size where the clamp genuinely saturates: `hypot(16, 16) ≈ 22.6 ≥ 13.5`;
the quantisation hypothesis is discharged by computing `ratQuantize`
exactly on the model's `hypot` stand-in, which also saturates) on the
all-inside bitmap of 200s. -/
theorem C8_witness :
    ((∀ b ∈ List.replicate 256 200, 127 < b) ∧
     ratSdfOps.quantize (ratSdfOps.hypotNat 16 16) = 255) ∧
    (ConvertBitmapToSignedDistanceField ratSdfOps (List.replicate 256 200) 16 16 =
       some (List.replicate (16 * 16) 255) ∧
     ConvertBitmapToSignedDistanceField ratSdfOps (List.replicate (16 * 16) 255) 16 16 =
       some (List.replicate (16 * 16) 255)) :=
  ⟨⟨by decide, by norm_num [ratSdfOps, ratQuantize]; decide⟩,
   (C8_amended ratSdfOps 16 16 (List.replicate 256 200) (by decide) (by decide) (by decide)
      (by decide) (by decide) (by norm_num [ratSdfOps]) (by norm_num [ratSdfOps])).1
     (by decide) (by norm_num [ratSdfOps, ratQuantize]; decide)⟩

/-!
## The glyph atlas builder: `TextRenderContextSkia::CreateGlyphAtlas`

The atlas data, the atlas context and the GPU collaborators
(`GlyphAtlas`, `GlyphAtlasContext`, allocator, surfaces, textures) live
outside `src/`; they are modelled from the spec (sections 3, 4.H, 4.I) as
plain state, with the fallible external steps as boolean oracles.  Pixel
contents of bitmaps are not modelled (no claim below inspects them);
bitmaps and device buffers are ids drawn from a counter, and `shared_ptr`
identity of atlases is id equality into an explicit heap.
-/

inductive AtlasType
  | alphaBitmap
  | colorBitmap
  | signedDistanceField
deriving DecidableEq

inductive PixelFormat
  | a8UNormInt
  | r8g8b8a8UNormInt
deriving DecidableEq

/-- How a texture came to exist: as a view of a device buffer
(`DeviceBuffer::AsTexture`) or as an allocator-created texture. -/
inductive TexSource
  | bufferView (buffer : ℕ)
  | created
deriving DecidableEq

/-- Model of `impeller::Texture`: its provenance, its label, and the bitmap
last uploaded into it through `SetContents` (if any). -/
structure TextureM where
  source : TexSource
  label : Option String
  contentsFrom : Option ℕ
deriving DecidableEq

/-- Modelled from the spec: `GlyphAtlas` (spec 3 and 4.H; the class lives
outside `src/`): the atlas type, the `FontGlyphPair → Rect` position map
(`AddTypefaceGlyphPosition` appends — the builder guarantees key
uniqueness — and `FindFontGlyphBounds` is association lookup) and the
texture handle. -/
structure GlyphAtlasData (Pair : Type) where
  type : AtlasType
  positions : List (Pair × RectM)
  texture : Option TextureM
deriving DecidableEq

/-- Modelled from the spec: `GlyphAtlasContext` (spec 4.I; outside `src/`),
the process-local cache of the last atlas, its size, its rect packer and
its bitmap as a `(SkBitmap id, DeviceBuffer id)` pair. -/
structure GlyphAtlasContextM (P : Type) where
  atlas : Option ℕ
  atlasSize : ℕ × ℕ
  rectPacker : Option P
  bitmap : Option (ℕ × ℕ)
deriving DecidableEq

/-- The heap of atlas objects (ids are indices; `shared_ptr` identity is id
equality), the context, and a counter supplying fresh bitmap/buffer ids. -/
structure WorldM (Pair P : Type) where
  heap : List (GlyphAtlasData Pair)
  ctx : GlyphAtlasContextM P
  nextId : ℕ
deriving DecidableEq

/-- Boolean oracles for the fallible external steps of the builder. -/
structure BuildOracles where
  isValid : Bool
  tryAllocPixels : Bool
  makeSurface : Bool
  updateSurface : Bool
  rowBytesMatch : Bool
  asTextureValid : Bool
  setContentsOk : Bool

/-- `std::set` insertion, modelled as first-insertion-ordered
deduplication (no claim here depends on the comparator's iteration
order). -/
def setInsert {β : Type} [DecidableEq β] (s : List β) (b : β) : List β :=
  if b ∈ s then s else s ++ [b]

/-- `CollectUniqueFontGlyphPairs` (text_render_context_skia.cc:56): walk
every frame's runs and insert `(font, glyph_position.glyph)` into the set. -/
def CollectUniqueFontGlyphPairs {Font Glyph : Type} [DecidableEq Font] [DecidableEq Glyph]
    (frames : List (List (Font × List Glyph))) : List (Font × Glyph) :=
  frames.foldl (fun s frame =>
    frame.foldl (fun s run =>
      run.2.foldl (fun s g => setInsert s (run.1, g)) s) s) []

/-- The packing loop of `CanAppendToExistingAtlas`: stop at the first
rejected glyph, keeping the partially advanced packer. -/
def canAppendGo (pp : RectPackerModel P) (gs : Pair → ℕ × ℕ) :
    List Pair → List RectM → P → Bool × List RectM × P
  | [], acc, pk => (true, acc, pk)
  | p :: rest, acc, pk =>
    let gsz := gs p
    match pp.addRect pk (gsz.1 + kPadding) (gsz.2 + kPadding) with
    | none => (false, acc, pk)
    | some (loc, pk') =>
      canAppendGo pp gs rest (acc ++ [(loc.1, loc.2, gsz.1, gsz.2)]) pk'

/-- `CanAppendToExistingAtlas` (text_render_context_skia.cc:111).  The rect
packer is shared (`shared_ptr<GrRectanizer>` held by the context), so the
partially advanced packer state is kept even on failure. -/
def CanAppendToExistingAtlas (pp : RectPackerModel P) (gs : Pair → ℕ × ℕ)
    (packer : Option P) (atlasSize : ℕ × ℕ) (extraPairs : List Pair) :
    Bool × List RectM × Option P :=
  match packer with
  | none => (false, [], none)
  | some pk =>
    if atlasSize.1 = 0 ∨ atlasSize.2 = 0 then (false, [], some pk)
    else
      let r := canAppendGo pp gs extraPairs [] pk
      (r.1, r.2.1, some r.2.2)

/-- `CreateAtlasBitmap` (text_render_context_skia.cc:369): allocate a bitmap
backed by a fresh host-visible device buffer and rasterise every glyph into
it.  Pixel contents are not modelled; the result is the fresh
`(bitmap id, device buffer id)` pair and the advanced id counter. -/
def CreateAtlasBitmap (orc : BuildOracles) (nextId : ℕ) : Option ((ℕ × ℕ) × ℕ) :=
  if ¬ orc.tryAllocPixels then none
  else if ¬ orc.makeSurface then none
  else some ((nextId, nextId + 1), nextId + 2)

/-- `UploadGlyphTextureAtlas` (text_render_context_skia.cc:433): after the
row-bytes size check, the device buffer is turned into a texture view via
`AsTexture` — there is no capability branch here — and on validity the
texture is labelled "GlyphAtlas". -/
def UploadGlyphTextureAtlas (orc : BuildOracles) (bufferId : ℕ) : Option TextureM :=
  if ¬ orc.rowBytesMatch then none
  else if ¬ orc.asTextureValid then none
  else some { source := TexSource.bufferView bufferId, label := some "GlyphAtlas",
              contentsFrom := none }

/-- `UpdateGlyphTextureAtlas` (text_render_context_skia.cc:418): re-upload
the bitmap into the existing texture through `SetContents`. -/
def UpdateGlyphTextureAtlas (orc : BuildOracles) (bitmapId : ℕ) (tex : TextureM) :
    Bool × TextureM :=
  if orc.setContentsOk then (true, { tex with contentsFrom := some bitmapId })
  else (false, tex)

/-- Steps 4-6 of the append path of `CreateGlyphAtlas`
(text_render_context_skia.cc:506-540), once the new-glyph positions were
accepted: store `atlas2` (the prior atlas with the appended positions) in
the heap, draw the new glyphs into the cached bitmap (null-cached-bitmap
dereference is `none`), and on non-shared-memory platforms re-upload via
`SetContents` on the prior texture. -/
def appendPath {Pair P : Type} (orc : BuildOracles) (supportsShared : Bool)
    (lid : ℕ) (atlas2 : GlyphAtlasData Pair) (w1 : WorldM Pair P) :
    Option (Option ℕ × WorldM Pair P) :=
  let w2 := { w1 with heap := w1.heap.set lid atlas2 }
  -- Step 5: draw the new glyphs into the cached bitmap.
  match w1.ctx.bitmap with
  | none => none
  | some (bm, _) =>
    if ¬ orc.updateSurface then some (none, w2)
    else
      -- Step 6: without shared device-buffer/texture memory, re-upload
      -- through SetContents on the existing texture.
      if supportsShared then some (some lid, w2)
      else
        match atlas2.texture with
        | none => none
        | some tex =>
          let u := UpdateGlyphTextureAtlas orc bm tex
          let heapU := w2.heap.set lid ({ atlas2 with texture := some u.2 })
          let w3 := { w2 with heap := heapU }
          if u.1 then some (some lid, w3) else some (none, w3)

/-- Steps 4-9 of the rebuild path of `CreateGlyphAtlas`
(text_render_context_skia.cc:546-640): append a fresh empty atlas to the
heap, run the optimum size search, store the fresh atlas and the found size
into the context (`UpdateGlyphAtlas` runs BEFORE the emptiness check),
bail out with `nullptr` on an empty size or a position-count mismatch, and
otherwise record positions, allocate the bitmap, upload the buffer as a
texture view and hand back the fresh atlas. -/
def rebuildPath {Font Glyph P : Type} [DecidableEq Font] [DecidableEq Glyph]
    (pp : RectPackerModel P) (gs : Font × Glyph → ℕ × ℕ) (orc : BuildOracles)
    (minBytesPerRow : PixelFormat → ℕ) (supportsShared : Bool) (ty : AtlasType)
    (w1 : WorldM (Font × Glyph) P) (pairs : List (Font × Glyph)) :
    Option (Option ℕ × WorldM (Font × Glyph) P) :=
  let format := match ty with
    | AtlasType.signedDistanceField => PixelFormat.a8UNormInt
    | AtlasType.alphaBitmap => PixelFormat.a8UNormInt
    | AtlasType.colorBitmap => PixelFormat.r8g8b8a8UNormInt
  -- Step 4: fresh atlas object, then the optimum size search.
  let newId := w1.heap.length
  let heap2 := w1.heap ++ [({ type := ty, positions := [], texture := none } : GlyphAtlasData (Font × Glyph))]
  let minAlign := if supportsShared then some (minBytesPerRow format)
    else none
  let r := OptimumAtlasSizeForFontGlyphPairs pp gs pairs minAlign
  let ctx2 := match r.2.1 with
    | some pk => { w1.ctx with rectPacker := some pk }
    | none => w1.ctx
  -- UpdateGlyphAtlas runs BEFORE the emptiness check.
  let ctx3 := { ctx2 with atlas := some newId, atlasSize := r.1 }
  let w2 : WorldM (Font × Glyph) P :=
    { heap := heap2, ctx := ctx3, nextId := w1.nextId }
  if r.1.1 = 0 ∨ r.1.2 = 0 then some (none, w2)
  else if r.2.2.length ≠ pairs.length then some (none, w2)
  else
    -- Step 6: record the positions in the fresh atlas.
    let heap3 := heap2.set newId
      ({ type := ty, positions := pairs.zip r.2.2, texture := none })
    -- Step 7: allocate and draw the atlas bitmap.
    match CreateAtlasBitmap orc w2.nextId with
    | none => some (none, { w2 with heap := heap3 })
    | some ((bm, buf), nid) =>
      let w3 : WorldM (Font × Glyph) P :=
        { heap := heap3, ctx := { ctx3 with bitmap := some (bm, buf) },
          nextId := nid }
      -- Step 8: (the SDF conversion acts on pixels, which are not
      -- modelled) upload the buffer as a texture view.
      match UploadGlyphTextureAtlas orc buf with
      | none => some (none, w3)
      | some tex =>
        -- Step 9: record the texture in the fresh atlas.
        let heap4 := heap3.set newId
          ({ type := ty, positions := pairs.zip r.2.2, texture := some tex })
        some (some newId, { w3 with heap := heap4 })

/-- `TextRenderContextSkia::CreateGlyphAtlas` (text_render_context_skia.cc:466).
The outer `Option` is totality: `none` means the C++ dereferenced a null
pointer (`GetGlyphAtlas()` null at Step 2's unconditional
`FindFontGlyphBounds`, a null cached bitmap at Step 5, or a null texture in
the append path's `UpdateGlyphTextureAtlas`).  The inner `Option ℕ` is the
returned atlas reference (`none` models returning `nullptr`), paired with
the post-call world. -/
def CreateGlyphAtlas {Font Glyph P : Type} [DecidableEq Font] [DecidableEq Glyph]
    (pp : RectPackerModel P) (gs : Font × Glyph → ℕ × ℕ) (orc : BuildOracles)
    (minBytesPerRow : PixelFormat → ℕ) (supportsShared : Bool) (ty : AtlasType)
    (w : WorldM (Font × Glyph) P) (frames : List (List (Font × List Glyph))) :
    Option (Option ℕ × WorldM (Font × Glyph) P) :=
  if ¬ orc.isValid then some (none, w)
  else
    -- Step 1: collect the unique font-glyph pairs of the frame.
    let pairs := CollectUniqueFontGlyphPairs frames
    if pairs = [] then some (w.ctx.atlas, w)
    else
      match w.ctx.atlas with
      | none => none
      | some lid =>
        match w.heap[lid]? with
        | none => none
        | some lastAtlas =>
          -- Step 2: classify the pairs against the prior atlas.
          let newGlyphs := pairs.filter (fun p => (lastAtlas.positions.lookup p) = none)
          if lastAtlas.type = ty ∧ newGlyphs = [] then some (some lid, w)
          else
            -- Step 3: try to append to the existing atlas (same type only;
            -- the shared packer keeps any partial insertions).
            let app := if lastAtlas.type = ty then
                CanAppendToExistingAtlas pp gs w.ctx.rectPacker w.ctx.atlasSize newGlyphs
              else (false, [], w.ctx.rectPacker)
            let w1 : WorldM (Font × Glyph) P :=
              { w with ctx := { w.ctx with rectPacker := app.2.2 } }
            if lastAtlas.type = ty ∧ app.1 then
              -- Step 4 (append): record the new glyphs' positions in the
              -- prior atlas object, then Steps 5-6.
              appendPath orc supportsShared lid
                ({ lastAtlas with
                   positions := lastAtlas.positions ++ newGlyphs.zip app.2.1 }) w1
            else
              rebuildPath pp gs orc minBytesPerRow supportsShared ty w1 pairs

/-!
## Concrete instances for the atlas-builder claims
-/

/-- Oracles under which every fallible external step succeeds. -/
def allOkOracles : BuildOracles :=
  { isValid := true, tryAllocPixels := true, makeSurface := true,
    updateSurface := true, rowBytesMatch := true, asTextureValid := true,
    setContentsOk := true }

/-- Every glyph measures 1×1. -/
def unitGlyphSizes : ℕ × ℕ → ℕ × ℕ := fun _ => (1, 1)

/-- Every glyph measures 6000×6000 and fits in no ≤ 4096 atlas. -/
def hugeGlyphSizes : ℕ × ℕ → ℕ × ℕ := fun _ => (6000, 6000)

/-- A world whose context has never cached an atlas. -/
def emptyAtlasWorld : WorldM (ℕ × ℕ) (ℕ × ℕ × ℕ) :=
  { heap := [],
    ctx := { atlas := none, atlasSize := (0, 0), rectPacker := none, bitmap := none },
    nextId := 0 }

/-- A prior alpha atlas holding the glyph (0,0) at rect (0,0,1,1). -/
def primedAtlasData : GlyphAtlasData (ℕ × ℕ) :=
  { type := AtlasType.alphaBitmap,
    positions := [((0, 0), (0, 0, 1, 1))],
    texture := some { source := TexSource.bufferView 90,
                      label := some "GlyphAtlas", contentsFrom := none } }

/-- A world caching `primedAtlasData` with a 256×256 packer and a bitmap. -/
def primedAtlasWorld : WorldM (ℕ × ℕ) (ℕ × ℕ × ℕ) :=
  { heap := [primedAtlasData],
    ctx := { atlas := some 0, atlasSize := (256, 256),
             rectPacker := some (rowPackerModel.factory 256 256),
             bitmap := some (100, 101) },
    nextId := 102 }

/-- One frame with one run of font 0 and glyph 0. -/
def oneGlyphFrames : List (List (ℕ × List ℕ)) := [[(0, [0])]]

/-!
## C10, C5, C6, C3, C4: the builder's flow
-/

/-- C10: with a valid context, an empty collected pair set always avoids the
prior-atlas dereference (the call returns, whatever the context holds), and
whenever the pair set is non-empty and the context's atlas is absent the
unconditional `last_atlas->FindFontGlyphBounds` of Step 2 dereferences null
(`none` result of the embedding): non-null prior atlas is exactly the
precondition for totality beyond the empty-frame fast path. -/
theorem C10_theorem {Font Glyph P : Type} [DecidableEq Font] [DecidableEq Glyph]
    (pp : RectPackerModel P) (gs : Font × Glyph → ℕ × ℕ) (orc : BuildOracles)
    (mbr : PixelFormat → ℕ) (ss : Bool) (ty : AtlasType)
    (w : WorldM (Font × Glyph) P) (frames : List (List (Font × List Glyph))) :
    (orc.isValid = true → w.ctx.atlas = none →
      CollectUniqueFontGlyphPairs frames ≠ [] →
      CreateGlyphAtlas pp gs orc mbr ss ty w frames = none) ∧
    (CollectUniqueFontGlyphPairs frames = [] →
      CreateGlyphAtlas pp gs orc mbr ss ty w frames ≠ none) := by
  constructor
  · intro hv ha hne
    simp [CreateGlyphAtlas, hv, hne, ha]
  · intro hp
    by_cases hv : orc.isValid = true <;> simp [CreateGlyphAtlas, hv, hp]

theorem C10_witness :
    CreateGlyphAtlas rowPackerModel unitGlyphSizes allOkOracles (fun _ => 0) true
      AtlasType.alphaBitmap emptyAtlasWorld oneGlyphFrames = none ∧
    CreateGlyphAtlas rowPackerModel unitGlyphSizes allOkOracles (fun _ => 0) true
      AtlasType.alphaBitmap emptyAtlasWorld [] ≠ none :=
  ⟨(C10_theorem rowPackerModel unitGlyphSizes allOkOracles (fun _ => 0) true
      AtlasType.alphaBitmap emptyAtlasWorld oneGlyphFrames).1 rfl rfl (by decide),
   (C10_theorem rowPackerModel unitGlyphSizes allOkOracles (fun _ => 0) true
      AtlasType.alphaBitmap emptyAtlasWorld []).2 rfl⟩

/-- C5: with a valid context, CreateGlyphAtlas returns the prior atlas
reference and a completely unchanged world in both fast paths: an empty
collected pair set, and a type-matching prior atlas already holding a
position for every collected pair. -/
theorem C5_theorem {Font Glyph P : Type} [DecidableEq Font] [DecidableEq Glyph]
    (pp : RectPackerModel P) (gs : Font × Glyph → ℕ × ℕ) (orc : BuildOracles)
    (mbr : PixelFormat → ℕ) (ss : Bool) (ty : AtlasType)
    (w : WorldM (Font × Glyph) P) (frames : List (List (Font × List Glyph)))
    (hv : orc.isValid = true) :
    (CollectUniqueFontGlyphPairs frames = [] →
      CreateGlyphAtlas pp gs orc mbr ss ty w frames = some (w.ctx.atlas, w)) ∧
    (∀ lid d, w.ctx.atlas = some lid → w.heap[lid]? = some d → d.type = ty →
      (∀ p ∈ CollectUniqueFontGlyphPairs frames, (d.positions.lookup p).isSome) →
      CreateGlyphAtlas pp gs orc mbr ss ty w frames = some (some lid, w)) := by
  constructor
  · intro hp
    simp [CreateGlyphAtlas, hv, hp]
  · intro lid d ha hd hty hall
    have hfilter : (CollectUniqueFontGlyphPairs frames).filter
        (fun p => (d.positions.lookup p) = none) = [] := by
      rw [List.filter_eq_nil_iff]
      intro p hp
      have h1 := (Option.isSome_iff_ne_none).mp (hall p hp)
      simpa using h1
    by_cases hp : CollectUniqueFontGlyphPairs frames = []
    · simp [CreateGlyphAtlas, hv, hp, ha]
    · simp [CreateGlyphAtlas, hv, hp, ha, hd, hty, hfilter]

theorem C5_witness :
    CreateGlyphAtlas rowPackerModel unitGlyphSizes allOkOracles (fun _ => 0) true
      AtlasType.alphaBitmap primedAtlasWorld oneGlyphFrames =
      some (some 0, primedAtlasWorld) :=
  (C5_theorem rowPackerModel unitGlyphSizes allOkOracles (fun _ => 0) true
      AtlasType.alphaBitmap primedAtlasWorld oneGlyphFrames rfl).2 0
    primedAtlasData rfl rfl rfl (by decide)

/-- When the append loop accepts every pair, it emits one rectangle per
pair on top of the accumulator. -/
theorem canAppendGo_length (pp : RectPackerModel P) (gs : Pair → ℕ × ℕ)
    (l : List Pair) : ∀ (acc : List RectM) (pk : P),
      (canAppendGo pp gs l acc pk).1 = true →
      (canAppendGo pp gs l acc pk).2.1.length = acc.length + l.length := by
  induction l with
  | nil => intro acc pk _; simp [canAppendGo]
  | cons p rest ih =>
    intro acc pk h
    simp only [canAppendGo] at h ⊢
    cases hm : pp.addRect pk ((gs p).1 + kPadding) ((gs p).2 + kPadding) with
    | none => rw [hm] at h; simp at h
    | some r =>
      obtain ⟨loc, pk2⟩ := r
      rw [hm] at h
      simp only [] at h ⊢
      have h2 := ih (acc ++ [(loc.1, loc.2, (gs p).1, (gs p).2)]) pk2 h
      rw [h2]
      simp only [List.length_append, List.length_cons, List.length_nil]
      omega

/-- C6: incremental append is pure-additive.  Under the append path's entry
conditions (valid context, type-matching prior atlas, a non-empty set of new
glyphs all accepted by the shared packer, a cached bitmap, a successful
surface draw, and either shared-memory upload or a prior texture with a
successful `SetContents`), the call returns the prior atlas reference, the
atlas object's position list becomes the old list plus exactly one rectangle
per new glyph, and every previously present pair still looks up to its old
rectangle. -/
theorem C6_theorem {Font Glyph P : Type} [DecidableEq Font] [DecidableEq Glyph]
    (pp : RectPackerModel P) (gs : Font × Glyph → ℕ × ℕ) (orc : BuildOracles)
    (mbr : PixelFormat → ℕ) (ss : Bool) (ty : AtlasType)
    (w : WorldM (Font × Glyph) P) (frames : List (List (Font × List Glyph)))
    (lid : ℕ) (d : GlyphAtlasData (Font × Glyph))
    (newGlyphs : List (Font × Glyph)) (poss : List RectM) (pk' : Option P)
    (bm bu : ℕ)
    (hv : orc.isValid = true)
    (ha : w.ctx.atlas = some lid)
    (hd : w.heap[lid]? = some d)
    (hty : d.type = ty)
    (hng : newGlyphs = (CollectUniqueFontGlyphPairs frames).filter
      (fun p => (d.positions.lookup p) = none))
    (hne : newGlyphs ≠ [])
    (happ : CanAppendToExistingAtlas pp gs w.ctx.rectPacker w.ctx.atlasSize newGlyphs
      = (true, poss, pk'))
    (hbm : w.ctx.bitmap = some (bm, bu))
    (hus : orc.updateSurface = true)
    (hs6 : ss = true ∨ ((∃ t, d.texture = some t) ∧ orc.setContentsOk = true)) :
    ∃ w' d', CreateGlyphAtlas pp gs orc mbr ss ty w frames = some (some lid, w') ∧
      w'.heap[lid]? = some d' ∧
      d'.positions = d.positions ++ newGlyphs.zip poss ∧
      poss.length = newGlyphs.length ∧
      (∀ p r, d.positions.lookup p = some r → d'.positions.lookup p = some r) ∧
      d'.positions.map Prod.fst = d.positions.map Prod.fst ++ newGlyphs := by
  obtain ⟨hlt, -⟩ := List.getElem?_eq_some_iff.mp hd
  have hplen : poss.length = newGlyphs.length := by
    rcases hpk : w.ctx.rectPacker with _ | pk0
    · rw [hpk] at happ
      simp [CanAppendToExistingAtlas] at happ
    · rw [hpk] at happ
      by_cases hsz : w.ctx.atlasSize.1 = 0 ∨ w.ctx.atlasSize.2 = 0
      · simp [CanAppendToExistingAtlas, hsz] at happ
      · simp only [CanAppendToExistingAtlas, if_neg hsz, Prod.mk.injEq] at happ
        obtain ⟨h1, h2, h3⟩ := happ
        have h4 := canAppendGo_length pp gs newGlyphs [] pk0 h1
        rw [h2] at h4
        simpa using h4
  have hpne : CollectUniqueFontGlyphPairs frames ≠ [] := by
    intro h0
    exact hne (by rw [hng, h0]; rfl)
  have hpres : ∀ p r, d.positions.lookup p = some r →
      (d.positions ++ newGlyphs.zip poss).lookup p = some r := by
    intro p r hpr
    rw [List.lookup_append, hpr]
    rfl
  have hkeys : (d.positions ++ newGlyphs.zip poss).map Prod.fst
      = d.positions.map Prod.fst ++ newGlyphs := by
    rw [List.map_append, List.map_fst_zip]
    exact le_of_eq hplen.symm
  have hfe : ((CollectUniqueFontGlyphPairs frames).filter
      (fun p => (d.positions.lookup p) = none)) = newGlyphs := hng.symm
  by_cases hss : ss = true
  · refine ⟨⟨w.heap.set lid ({ d with positions := d.positions ++ newGlyphs.zip poss }),
      { w.ctx with rectPacker := pk' }, w.nextId⟩,
      { d with positions := d.positions ++ newGlyphs.zip poss },
      ?_, ?_, rfl, hplen, hpres, hkeys⟩
    · simp [CreateGlyphAtlas, appendPath, hv, hpne, ha, hd, hfe, hty, happ, hbm, hus, hss, hne]
    · exact List.getElem?_set_self hlt
  · rcases hs6 with hss' | ⟨⟨t, ht⟩, hsc⟩
    · exact absurd hss' hss
    · refine ⟨⟨(w.heap.set lid ({ d with positions := d.positions ++ newGlyphs.zip poss })).set lid ({ d with positions := d.positions ++ newGlyphs.zip poss, texture := some { t with contentsFrom := some bm } }),
        { w.ctx with rectPacker := pk' }, w.nextId⟩,
        ({ d with positions := d.positions ++ newGlyphs.zip poss, texture := some { t with contentsFrom := some bm } }),
        ?_, ?_, rfl, hplen, hpres, hkeys⟩
      · simp [CreateGlyphAtlas, appendPath, hv, hpne, ha, hd, hfe, hty, happ, hbm, hus,
          hss, hne, ht, UpdateGlyphTextureAtlas, hsc]
      · exact List.getElem?_set_self (by simpa using hlt)

/-- Frames yielding the pairs (0,0) and (0,1). -/
def twoGlyphFrames : List (List (ℕ × List ℕ)) := [[(0, [0, 1])]]

theorem C6_witness :
    ∃ w' d', CreateGlyphAtlas rowPackerModel unitGlyphSizes allOkOracles (fun _ => 0) true
        AtlasType.alphaBitmap primedAtlasWorld twoGlyphFrames = some (some 0, w') ∧
      w'.heap[0]? = some d' ∧
      d'.positions = primedAtlasData.positions ++ [((0, 1), (0, 0, 1, 1))].map id ∧
      [((0 : ℕ), (0 : ℕ), (1 : ℕ), (1 : ℕ))].length = [((0 : ℕ), (1 : ℕ))].length ∧
      (∀ p r, primedAtlasData.positions.lookup p = some r →
        d'.positions.lookup p = some r) ∧
      d'.positions.map Prod.fst = primedAtlasData.positions.map Prod.fst ++ [(0, 1)] := by
  have h := C6_theorem rowPackerModel unitGlyphSizes allOkOracles (fun _ => 0) true
    AtlasType.alphaBitmap primedAtlasWorld twoGlyphFrames 0 primedAtlasData
    [(0, 1)] [(0, 0, 1, 1)] (some (256, 256, 3)) 100 101
    rfl rfl rfl rfl (by decide) (by decide) (by decide) rfl rfl (Or.inl rfl)
  simpa using h

/-- C3, the claim as stated, is refuted by a failed rebuild: the prior
context cached atlas 0; the rebuild (type mismatch forces it) fails its
size search (a 6000×6000 glyph fits no candidate), yet the context now
points at the half-built fresh atlas 1 with the sentinel size (0,0), while
the caller is handed `nullptr` and still holds atlas 0. -/
theorem C3_counterexample :
    (CreateGlyphAtlas rowPackerModel hugeGlyphSizes allOkOracles (fun _ => 0) true
        AtlasType.colorBitmap primedAtlasWorld oneGlyphFrames).map
      (fun r => (r.1, r.2.ctx.atlas, r.2.ctx.atlasSize)) =
      some (none, some 1, (0, 0)) ∧
    primedAtlasWorld.ctx.atlas = some 0 ∧
    ((some 1 : Option ℕ) == some 0) = false := by
  refine ⟨by decide, rfl, by decide⟩

/-- C3 amended: after any CreateGlyphAtlas call that returns (also a failed
one returning `nullptr`), the context's cached atlas is either the one it
held before the call, or the freshly appended rebuild atlas — whose id is
the old heap length and which the grown heap really contains.  In
particular a failed rebuild leaves the context holding the partially built
fresh atlas, not the caller's old one. -/
theorem appendPath_ctx {Pair P : Type} (orc : BuildOracles) (ss : Bool) (lid : ℕ)
    (a2 : GlyphAtlasData Pair) (w1 : WorldM Pair P) (res : Option ℕ)
    (w' : WorldM Pair P) (h : appendPath orc ss lid a2 w1 = some (res, w')) :
    w'.ctx = w1.ctx ∧ w'.heap.length = w1.heap.length := by
  rw [appendPath.eq_def] at h
  simp only [] at h
  repeat' split at h
  all_goals try (exact Option.noConfusion h)
  all_goals rw [Option.some.injEq, Prod.mk.injEq] at h
  all_goals obtain ⟨h1, h2⟩ := h
  all_goals subst h2
  all_goals exact ⟨rfl, by simp⟩

theorem rebuildPath_ctx {Font Glyph P : Type} [DecidableEq Font] [DecidableEq Glyph]
    (pp : RectPackerModel P) (gs : Font × Glyph → ℕ × ℕ) (orc : BuildOracles)
    (mbr : PixelFormat → ℕ) (ss : Bool) (ty : AtlasType)
    (w1 : WorldM (Font × Glyph) P) (pairs : List (Font × Glyph))
    (res : Option ℕ) (w' : WorldM (Font × Glyph) P)
    (h : rebuildPath pp gs orc mbr ss ty w1 pairs = some (res, w')) :
    w'.ctx.atlas = some w1.heap.length ∧ w1.heap.length < w'.heap.length := by
  rw [rebuildPath.eq_def] at h
  simp only [] at h
  repeat' split at h
  all_goals rw [Option.some.injEq, Prod.mk.injEq] at h
  all_goals obtain ⟨h1, h2⟩ := h
  all_goals subst h2
  all_goals exact ⟨rfl, by simp only [List.length_set, List.length_append,
    List.length_cons, List.length_nil]; omega⟩

theorem C3_amended {Font Glyph P : Type} [DecidableEq Font] [DecidableEq Glyph]
    (pp : RectPackerModel P) (gs : Font × Glyph → ℕ × ℕ) (orc : BuildOracles)
    (mbr : PixelFormat → ℕ) (ss : Bool) (ty : AtlasType)
    (w : WorldM (Font × Glyph) P) (frames : List (List (Font × List Glyph)))
    (res : Option ℕ) (w' : WorldM (Font × Glyph) P)
    (h : CreateGlyphAtlas pp gs orc mbr ss ty w frames = some (res, w')) :
    w'.ctx.atlas = w.ctx.atlas ∨
    (w'.ctx.atlas = some w.heap.length ∧ w.heap.length < w'.heap.length) := by
  rw [CreateGlyphAtlas.eq_def] at h
  simp only [] at h
  repeat' split at h
  all_goals try (exact Option.noConfusion h)
  case isFalse.isFalse.h_2.h_2.isFalse.isTrue.isTrue =>
    rw [(appendPath_ctx _ _ _ _ _ _ _ h).1]
    exact Or.inl rfl
  case isFalse.isFalse.h_2.h_2.isFalse.isFalse.isTrue =>
    rw [(appendPath_ctx _ _ _ _ _ _ _ h).1]
    exact Or.inl rfl
  case isFalse.isFalse.h_2.h_2.isFalse.isTrue.isFalse =>
    have hr := rebuildPath_ctx _ _ _ _ _ _ _ _ _ _ h
    exact Or.inr hr
  case isFalse.isFalse.h_2.h_2.isFalse.isFalse.isFalse =>
    have hr := rebuildPath_ctx _ _ _ _ _ _ _ _ _ _ h
    exact Or.inr hr
  all_goals rw [Option.some.injEq, Prod.mk.injEq] at h
  all_goals obtain ⟨h1, h2⟩ := h
  all_goals subst h2
  all_goals exact Or.inl rfl

theorem C3_witness :
    emptyAtlasWorld.ctx.atlas = emptyAtlasWorld.ctx.atlas ∨
    (emptyAtlasWorld.ctx.atlas = some emptyAtlasWorld.heap.length ∧
      emptyAtlasWorld.heap.length < emptyAtlasWorld.heap.length) :=
  C3_amended rowPackerModel unitGlyphSizes allOkOracles (fun _ => 0) true
    AtlasType.alphaBitmap emptyAtlasWorld [] none emptyAtlasWorld rfl

/-- `UploadGlyphTextureAtlas` can only hand back the labelled buffer-view
texture. -/
theorem UploadGlyphTextureAtlas_inv (orc : BuildOracles) (bufferId : ℕ)
    (tex : TextureM) (h : UploadGlyphTextureAtlas orc bufferId = some tex) :
    tex = { source := TexSource.bufferView bufferId, label := some "GlyphAtlas",
            contentsFrom := none } := by
  rw [UploadGlyphTextureAtlas] at h
  split at h
  · exact Option.noConfusion h
  · split at h
    · exact Option.noConfusion h
    · injection h with h
      exact h.symm

set_option maxHeartbeats 2000000 in
/-- Whenever the rebuild path hands back an atlas, it is the freshly
appended one (id = old heap length), it has the requested type, and its
texture is the labelled buffer view produced by `UploadGlyphTextureAtlas` —
with `contentsFrom = none`: SetContents is never involved, whatever the
capability flag. -/
theorem rebuildPath_success {Font Glyph P : Type} [DecidableEq Font] [DecidableEq Glyph]
    (pp : RectPackerModel P) (gs : Font × Glyph → ℕ × ℕ) (orc : BuildOracles)
    (mbr : PixelFormat → ℕ) (ss : Bool) (ty : AtlasType)
    (w1 : WorldM (Font × Glyph) P) (pairs : List (Font × Glyph))
    (nid : ℕ) (w' : WorldM (Font × Glyph) P)
    (h : rebuildPath pp gs orc mbr ss ty w1 pairs = some (some nid, w')) :
    nid = w1.heap.length ∧
    ∃ d' buf, w'.heap[nid]? = some d' ∧ d'.type = ty ∧
      d'.texture = some { source := TexSource.bufferView buf,
                          label := some "GlyphAtlas", contentsFrom := none } := by
  rw [rebuildPath.eq_def] at h
  by_cases hta : orc.tryAllocPixels = true
  all_goals by_cases hms : orc.makeSurface = true
  all_goals by_cases hrb : orc.rowBytesMatch = true
  all_goals by_cases hat : orc.asTextureValid = true
  all_goals simp only [CreateAtlasBitmap, UploadGlyphTextureAtlas, hta, hms, hrb, hat,
    eq_self_iff_true, not_true, not_false_iff, Bool.false_eq_true,
    Bool.true_eq_false, not_false, if_true, if_false, ite_true,
    ite_false] at h
  all_goals repeat' split at h
  all_goals try (simp only [] at h)
  all_goals rw [Option.some.injEq, Prod.mk.injEq] at h
  all_goals obtain ⟨h1, h2⟩ := h
  all_goals try (exact Option.noConfusion h1)
  all_goals subst h2
  all_goals injection h1 with h1
  all_goals subst h1
  all_goals refine ⟨rfl, _, _, List.getElem?_set_self ?_, rfl, rfl⟩
  all_goals simp only [List.length_set, List.length_append, List.length_cons,
    List.length_nil]
  all_goals omega

/-- C4, the claim as stated, is refuted on the non-shared-memory side: with
`supports_shared = false`, a successful rebuild still produces a texture
whose provenance is the device-buffer view (`AsTexture`), with no
`SetContents` upload recorded — the capability switch never selects a
created-texture-plus-set_contents upload. -/
theorem C4_counterexample :
    (CreateGlyphAtlas rowPackerModel unitGlyphSizes allOkOracles (fun _ => 0) false
        AtlasType.colorBitmap primedAtlasWorld oneGlyphFrames).map
      (fun r => (r.1, r.2.heap.map (fun a => a.texture))) =
      some (some 1, [primedAtlasData.texture,
        some { source := TexSource.bufferView 103, label := some "GlyphAtlas",
               contentsFrom := none }]) ∧
    ((TexSource.bufferView 103 == TexSource.created) = false) := by
  exact ⟨by decide, by decide⟩

/-- C4 amended: whenever CreateGlyphAtlas takes the rebuild path (valid
context, non-empty pair set, and a prior atlas whose type differs from the
requested one) and returns an atlas, that atlas is the fresh one (id = old
heap length), has the requested type, and its texture is always a
device-buffer view labelled "GlyphAtlas" with no `SetContents` recorded —
for BOTH values of the shared-memory capability, which only affects the
minimum-alignment request of the size search. -/
theorem C4_amended {Font Glyph P : Type} [DecidableEq Font] [DecidableEq Glyph]
    (pp : RectPackerModel P) (gs : Font × Glyph → ℕ × ℕ) (orc : BuildOracles)
    (mbr : PixelFormat → ℕ) (ss : Bool) (ty : AtlasType)
    (w : WorldM (Font × Glyph) P) (frames : List (List (Font × List Glyph)))
    (lid : ℕ) (d : GlyphAtlasData (Font × Glyph)) (nid : ℕ)
    (w' : WorldM (Font × Glyph) P)
    (hv : orc.isValid = true)
    (hpne : CollectUniqueFontGlyphPairs frames ≠ [])
    (ha : w.ctx.atlas = some lid)
    (hd : w.heap[lid]? = some d)
    (htyne : d.type ≠ ty)
    (hres : CreateGlyphAtlas pp gs orc mbr ss ty w frames = some (some nid, w')) :
    nid = w.heap.length ∧
    ∃ d' buf, w'.heap[nid]? = some d' ∧ d'.type = ty ∧
      d'.texture = some { source := TexSource.bufferView buf,
                          label := some "GlyphAtlas", contentsFrom := none } := by
  simp only [CreateGlyphAtlas, hv, hpne, ha, hd, htyne, Bool.not_true,
    Bool.false_eq_true, if_false, ite_false, false_and, if_neg hpne,
    not_false_iff] at hres
  have hr := rebuildPath_success _ _ _ _ _ _ _ _ _ _ hres
  exact hr

/-- The world produced by the C4 counterexample's rebuild. -/
def rebuiltWorld : WorldM (ℕ × ℕ) (ℕ × ℕ × ℕ) :=
  { heap := [primedAtlasData,
      { type := AtlasType.colorBitmap, positions := [((0, 0), (0, 0, 1, 1))],
        texture := some { source := TexSource.bufferView 103,
                          label := some "GlyphAtlas", contentsFrom := none } }],
    ctx := { atlas := some 1, atlasSize := (256, 256),
             rectPacker := some (256, 256, 3), bitmap := some (102, 103) },
    nextId := 104 }

theorem C4_witness :
    1 = primedAtlasWorld.heap.length ∧
    ∃ d' buf, rebuiltWorld.heap[1]? = some d' ∧ d'.type = AtlasType.colorBitmap ∧
      d'.texture = some { source := TexSource.bufferView buf,
                          label := some "GlyphAtlas", contentsFrom := none } :=
  C4_amended rowPackerModel unitGlyphSizes allOkOracles (fun _ => 0) false
    AtlasType.colorBitmap primedAtlasWorld oneGlyphFrames 0 primedAtlasData 1
    rebuiltWorld rfl (by decide) rfl rfl (by decide) (by decide)

/-!
## The Impeller image decoder

`ImageDecoderImpeller::DecompressTexture`
(image_decoder_impeller.cc:110-239).  Skia's float scaling factor is
abstracted: the descriptor's `get_scaled_dimensions` is an oracle function
of the exact rational ratio, and `ToPixelFormat` /
`SkImageInfo::validRowBytes` are boolean oracles.
-/

/-- The Skia color types the decoder distinguishes
(`kUnknown/kRGBA_8888/kRGBA_F16/kRGBA_F32/kBGR_101010x_XR`). -/
inductive SkColorType
  | unknown
  | rgba8888
  | rgbaF16
  | rgbaF32
  | bgr101010xXR
deriving DecidableEq

inductive SkAlphaType
  | kOpaque
  | kPremul
  | kUnpremul
deriving DecidableEq

/-- `SkImageInfo`: dimensions (kept as integers — Skia uses `int32_t`),
color type, alpha type, whether the color space is sRGB
(`makeColorSpace(SkColorSpace::MakeSRGB())` sets it), and whether
`IsWideGamut(colorSpace())` holds. -/
structure SkImageInfoM where
  width : ℤ
  height : ℤ
  colorType : SkColorType
  alphaType : SkAlphaType
  srgb : Bool
  wideGamut : Bool
deriving DecidableEq

/-- `ImageDescriptor`: its image info, whether the data is compressed,
`get_scaled_dimensions` as an oracle on the exact rational scale, and
whether `get_pixels` succeeds. -/
structure ImageDescriptorM where
  info : SkImageInfoM
  isCompressed : Bool
  scaledDimensions : ℚ → ℤ × ℤ
  getPixelsOk : Bool

/-- Boolean oracles for the decoder's external predicates:
`impeller::skia_conversions::ToPixelFormat(colorType).has_value()` and
`SkImageInfo::validRowBytes(rowBytes)` for a bitmap freshly set to the
given info. -/
structure DecodeOracles where
  toPixelFormat : SkColorType → Bool
  validRowBytes : SkImageInfoM → Bool

/-- `ChooseCompatibleColorType` (image_decoder_impeller.cc:97): F32 decays
to F16, everything else to RGBA_8888. -/
def ChooseCompatibleColorType : SkColorType → SkColorType
  | SkColorType.rgbaF32 => SkColorType.rgbaF16
  | _ => SkColorType.rgba8888

/-- `ChooseCompatibleAlphaType` (image_decoder_impeller.cc:106): identity. -/
def ChooseCompatibleAlphaType (t : SkAlphaType) : SkAlphaType := t

/-- `ImpellerAllocator::allocPixelRef` (image_decoder_impeller.cc:444):
reject an unknown color type, negative dimensions, or invalid row bytes;
otherwise the host-visible device buffer is created and installed. -/
def allocPixelRefOk (vrb : SkImageInfoM → Bool) (info : SkImageInfoM) : Bool :=
  if SkColorType.unknown = info.colorType ∨ info.width < 0 ∨ info.height < 0
      ∨ vrb info = false then false else true

/-- The decoder's result: the filled host-visible device buffer (an id; `0`
for the decode-sized bitmap's buffer, `1` for the rescaled one's) and
`bitmap->info()`. -/
structure DecompressResultM where
  deviceBuffer : ℕ
  info : SkImageInfoM
deriving DecidableEq

/-- `ImageDecoderImpeller::DecompressTexture` (image_decoder_impeller.cc:110).
A null descriptor yields `none`; `target_size` is clamped component-wise by
`max_texture_size`; the decode happens at the (oracle-chosen) decode size
with the compatible color/alpha types (wide-gamut choosing
BGR_101010x_XR/F16 over sRGB); `tryAllocPixels` failures and unsupported
pixel formats yield `none`; a decode already at the clamped target is
returned directly, otherwise a bitmap of exactly the clamped target size is
allocated and returned — `scalePixels` failure is only logged. -/
def DecompressTexture (orc : DecodeOracles) (descriptor : Option ImageDescriptorM)
    (targetSize : ℤ × ℤ) (maxTextureSize : ℤ × ℤ) (supportsWideGamut : Bool) :
    Option DecompressResultM :=
  match descriptor with
  | none => none
  | some desc =>
    let target : ℤ × ℤ :=
      (min maxTextureSize.1 targetSize.1, min maxTextureSize.2 targetSize.2)
    let sourceSize : ℤ × ℤ := (desc.info.width, desc.info.height)
    let decodeSize := if desc.isCompressed then
        desc.scaledDimensions
          (max ((target.1 : ℚ) / (sourceSize.1 : ℚ))
               ((target.2 : ℚ) / (sourceSize.2 : ℚ)))
      else sourceSize
    let baseInfo := desc.info
    let isWideGamut := if supportsWideGamut then baseInfo.wideGamut else false
    let alphaType := ChooseCompatibleAlphaType baseInfo.alphaType
    let wideColor := if alphaType = SkAlphaType.kOpaque then SkColorType.bgr101010xXR else SkColorType.rgbaF16
    let imageInfo := if isWideGamut = true then
        ({ baseInfo with width := decodeSize.1, height := decodeSize.2, colorType := wideColor, alphaType := alphaType, srgb := true })
      else
        ({ baseInfo with width := decodeSize.1, height := decodeSize.2, colorType := ChooseCompatibleColorType baseInfo.colorType, alphaType := alphaType })
    if orc.toPixelFormat imageInfo.colorType = false then none
    else
      -- 1. Decode: allocate through the Impeller allocator and (for
      -- compressed data) run the codec; the uncompressed branch's
      -- `readPixels` result is ignored by the source.
      let decodeOk := if desc.isCompressed then
          allocPixelRefOk orc.validRowBytes imageInfo && desc.getPixelsOk
        else allocPixelRefOk orc.validRowBytes imageInfo
      if decodeOk = false then none
      else if (imageInfo.width, imageInfo.height) = target then
        some { deviceBuffer := 0, info := imageInfo }
      else
        -- 2. Resize to the clamped target; `scalePixels` failure is logged
        -- and otherwise ignored.
        let scaledInfo := ({ imageInfo with width := target.1, height := target.2 })
        if allocPixelRefOk orc.validRowBytes scaledInfo = false then none
        else some { deviceBuffer := 1, info := scaledInfo }

/-- C9: whenever DecompressTexture returns a result, the returned bitmap
info's dimensions are exactly the requested target size clamped
component-wise by the maximum texture size — on both return paths. -/
theorem C9_theorem (orc : DecodeOracles) (desc : ImageDescriptorM)
    (targetSize maxTextureSize : ℤ × ℤ) (swg : Bool) (res : DecompressResultM)
    (h : DecompressTexture orc (some desc) targetSize maxTextureSize swg
      = some res) :
    res.info.width = min maxTextureSize.1 targetSize.1 ∧
    res.info.height = min maxTextureSize.2 targetSize.2 := by
  simp only [DecompressTexture] at h
  repeat' split at h
  all_goals try (exact Option.noConfusion h)
  all_goals injection h with h
  all_goals subst h
  all_goals try (exact ⟨rfl, rfl⟩)
  all_goals rename_i hfast
  all_goals exact ⟨congrArg Prod.fst hfast, congrArg Prod.snd hfast⟩

/-- An uncompressed 8×8 sRGB-less RGBA descriptor. -/
def sampleDescriptor : ImageDescriptorM :=
  { info := { width := 8, height := 8, colorType := SkColorType.rgba8888,
              alphaType := SkAlphaType.kPremul, srgb := false, wideGamut := false },
    isCompressed := false, scaledDimensions := fun _ => (8, 8),
    getPixelsOk := true }

/-- Oracles accepting every color type and row-byte layout. -/
def sampleOracles : DecodeOracles :=
  { toPixelFormat := fun _ => true, validRowBytes := fun _ => true }

def sampleResult : DecompressResultM :=
  { deviceBuffer := 0,
    info := { width := 8, height := 8, colorType := SkColorType.rgba8888,
              alphaType := SkAlphaType.kPremul, srgb := false, wideGamut := false } }

theorem C9_witness :
    sampleResult.info.width = min (4096 : ℤ) 8 ∧
    sampleResult.info.height = min (4096 : ℤ) 8 :=
  C9_theorem sampleOracles sampleDescriptor (8, 8) (4096, 4096) false
    sampleResult (by decide)

end Impeller
